import Mathlib

/-!
Verification of the Route Information Manager (RIM) of a message-broker
name service, shallowly embedded from the Rust source
(rocketmq-namesrv, route_info_manager.rs).

Hash maps of the source are modelled as association lists: lookup finds
the first matching key, insertion replaces the first matching entry in
place (appending at the end when the key is absent), and erasure removes
every entry with the key.  On duplicate-free lists (the only states a
Rust HashMap can produce) these coincide with the HashMap operations.

A call that panics in Rust (an unwrap of an absent value on a reachable
path, or the todo!() notification stub) is modelled by returning none
from the embedded function.  Unwraps that provably cannot fail (a get
immediately after an insert of the same key) are modelled with getD.
-/

set_option autoImplicit false

section AListOps

variable {K : Type} {V : Type} [DecidableEq K]

/-- First-match lookup in an association list, the model of HashMap::get. -/
def lookupAL : List (K × V) → K → Option V
  | [], _ => none
  | (k, v) :: t, k0 => if k = k0 then some v else lookupAL t k0

/-- Insert, the model of HashMap::insert: replace the first entry with the
key in place, append at the end when the key is absent. -/
def insertAL : List (K × V) → K → V → List (K × V)
  | [], k0, v0 => [(k0, v0)]
  | (k, v) :: t, k0, v0 => if k = k0 then (k0, v0) :: t else (k, v) :: insertAL t k0 v0

/-- Erase, the model of HashMap::remove: drop every entry with the key. -/
def eraseAL : List (K × V) → K → List (K × V)
  | [], _ => []
  | (k, v) :: t, k0 => if k = k0 then eraseAL t k0 else (k, v) :: eraseAL t k0

/-- Key membership, the model of HashMap::contains_key. -/
def containsAL (l : List (K × V)) (k : K) : Bool :=
  (lookupAL l k).isSome

end AListOps

/-- Insertion into a HashSet modelled as a duplicate-free list. -/
def insertSet {K : Type} [DecidableEq K] (l : List K) (k : K) : List K :=
  if k ∈ l then l else l ++ [k]

/-- Minimum of the keys of a broker-address map; the callers in the source
only evaluate it on non-empty maps (the empty case is guarded). -/
def minKeys (l : List (Int × String)) : Int :=
  match l with
  | [] => 0
  | (k, _) :: t => t.foldl (fun m p => min m p.1) k

/-- DataVersion, wire layout of three signed 64-bit words; equality is
structural, ordering (for the stale-registration guard) uses
state_version only. -/
structure DataVersion where
  state_version : Int
  timestamp : Int
  counter : Int
deriving DecidableEq, Repr

/-- Modelled from the spec: DataVersion::default() from rocketmq-remoting
is not under src/; the default carries zeroed fields. -/
def DataVersion.default0 : DataVersion := ⟨0, 0, 0⟩

/-- QueueData as stored in the topic-queue table; equality compares all
fields. -/
structure QueueData where
  broker_name : String
  write_queue_nums : Nat
  read_queue_nums : Nat
  perm : Nat
  topic_sys_flag : Nat
deriving DecidableEq, Repr

/-- Modelled from the spec: TopicConfig from rocketmq-common is not under
src/; the registration handler reads exactly these five fields. -/
structure TopicConfig where
  topic_name : String
  write_queue_nums : Nat
  read_queue_nums : Nat
  perm : Nat
  topic_sys_flag : Nat
deriving DecidableEq, Repr

/-- Modelled from the spec: TopicQueueMappingInfo from rocketmq-remoting
is not under src/; the handler reads only its optional bname, the rest of
the sharding metadata is opaque to the RIM and abstracted as a payload. -/
structure TopicQueueMappingInfo where
  bname : Option String
  payload : Nat
deriving DecidableEq, Repr

/-- Modelled from the spec: BrokerData from rocketmq-remoting is not under
src/.  It carries clusterName, brokerName, the ordered brokerId-to-address
map, an optional zoneName and the enableActingMaster flag. -/
structure BrokerData where
  cluster : String
  broker_name : String
  broker_addrs : List (Int × String)
  zone_name : Option String
  enable_acting_master : Bool
deriving DecidableEq, Repr

/-- Modelled from the spec: BrokerData::new(cluster, name, addrs, zone)
takes no enableActingMaster argument; a fresh row carries the default
(false) flag. -/
def BrokerData.new (cluster broker_name : String) (broker_addrs : List (Int × String))
    (zone_name : Option String) : BrokerData :=
  ⟨cluster, broker_name, broker_addrs, zone_name, false⟩

/-- Modelled from the spec: BrokerData::remove_broker_by_addr(id, addr)
(slave-to-master swap cleanup) removes every entry whose value equals the
address but whose key differs from the id. -/
def BrokerData.remove_broker_by_addr (bd : BrokerData) (broker_id : Int)
    (broker_addr : String) : BrokerData :=
  let addrs := bd.broker_addrs.filter (fun p => decide (¬(p.2 = broker_addr ∧ p.1 ≠ broker_id)))
  { bd with broker_addrs := addrs }

/-- Modelled from the spec: BrokerLiveInfo from this repository's
route_info crate file is not under src/; it stores the last heartbeat
timestamp, the expiry window, the broker's DataVersion and its
haServerAddr. -/
structure BrokerLiveInfo where
  last_update_timestamp : Int
  expire_millis : Int
  data_version : DataVersion
  ha_server_addr : String
deriving DecidableEq, Repr

/-- Modelled from the spec: RegisterBrokerResult with default (empty)
strings meaning the broker is itself the master. -/
structure RegisterBrokerResult where
  ha_server_addr : String
  master_addr : String
deriving DecidableEq, Repr

def RegisterBrokerResult.empty : RegisterBrokerResult := ⟨"", ""⟩

/-- Modelled from the spec: the three NamesrvConfig switches the RIM
consumes. -/
structure NamesrvConfig where
  delete_topic_with_broker_registration : Bool
  support_acting_master : Bool
  notify_min_broker_id_changed : Bool
deriving DecidableEq, Repr

/-- Modelled from the spec: the registration wrapper; dataVersion and
topicConfigTable may be absent, the mapping map is a (possibly empty)
map. -/
structure TopicConfigAndMappingSerializeWrapper where
  data_version : Option DataVersion
  topic_config_table : Option (List (String × TopicConfig))
  topic_queue_mapping_info_map : List (String × TopicQueueMappingInfo)
deriving DecidableEq, Repr

/-- The six tables plus the configuration record of the
RouteInfoManager. -/
structure RIMState where
  topic_queue_table : List (String × List (String × QueueData))
  broker_addr_table : List (String × BrokerData)
  cluster_addr_table : List (String × List String)
  broker_live_table : List ((String × String) × BrokerLiveInfo)
  filter_server_table : List ((String × String) × List String)
  topic_queue_mapping_info_table : List (String × List (String × TopicQueueMappingInfo))
  namesrv_config : NamesrvConfig
deriving DecidableEq, Repr

/-- TopicRouteData assembled by pickup_topic_route_data. -/
structure TopicRouteData where
  order_topic_conf : Option String
  broker_datas : List BrokerData
  queue_datas : List QueueData
  filter_server_table : List (String × List String)
  topic_queue_mapping_by_broker : Option (List (String × TopicQueueMappingInfo))
deriving DecidableEq, Repr

/-- The argument tuple of register_broker (the unused timeout kept for
fidelity); the wall-clock reading is passed separately. -/
structure RegisterArgs where
  cluster_name : String
  broker_addr : String
  broker_name : String
  broker_id : Int
  ha_server_addr : String
  zone_name : Option String
  timeout_millis : Option Int
  enable_acting_master : Option Bool
  wrapper : TopicConfigAndMappingSerializeWrapper
  filter_server_list : List String
deriving DecidableEq, Repr

def DEFAULT_BROKER_CHANNEL_EXPIRED_TIME : Int := 120000

/-- An empty RouteInfoManager with the given configuration. -/
def empty_rim (cfg : NamesrvConfig) : RIMState :=
  ⟨[], [], [], [], [], [], cfg⟩

/-- query_broker_topic_config: the DataVersion stored in the live table
for (clusterName, brokerAddr). -/
def query_broker_topic_config (s : RIMState) (cluster_name broker_addr : String) :
    Option DataVersion :=
  match lookupAL s.broker_live_table (cluster_name, broker_addr) with
  | some live_info => some live_info.data_version
  | none => none

/-- is_broker_topic_config_changed, exactly as in the source: true only
when a stored DataVersion exists and differs structurally; an absent live
entry yields false. -/
def is_broker_topic_config_changed (s : RIMState) (cluster_name broker_addr : String)
    (data_version : DataVersion) : Bool :=
  match query_broker_topic_config s cluster_name broker_addr with
  | some pre => if pre = data_version then false else true
  | none => false

/-- is_topic_config_changed: broker-level change, or the topic row is
absent, empty, or lacks this broker. -/
def is_topic_config_changed (s : RIMState) (cluster_name broker_addr : String)
    (data_version : DataVersion) (broker_name topic : String) : Bool :=
  if is_broker_topic_config_changed s cluster_name broker_addr data_version then true
  else
    match lookupAL s.topic_queue_table topic with
    | some queue_data => if queue_data.isEmpty then true else ! containsAL queue_data broker_name
    | none => true

/-- topic_set_of_broker_name: the topics whose row contains the broker. -/
def topic_set_of_broker_name (s : RIMState) (broker_name : String) : List String :=
  s.topic_queue_table.foldl
    (fun acc p => if containsAL p.2 broker_name then acc ++ [p.1] else acc) []

/-- create_and_update_queue_data: upsert this broker's QueueData into the
topic row, skipping the write when an equal value is already stored. -/
def create_and_update_queue_data (s : RIMState) (broker_name : String)
    (topic_config : TopicConfig) : RIMState :=
  let queue_data : QueueData :=
    ⟨broker_name, topic_config.write_queue_nums, topic_config.read_queue_nums,
      topic_config.perm, topic_config.topic_sys_flag⟩
  match lookupAL s.topic_queue_table topic_config.topic_name with
  | some queue_data_map =>
    let tq2 := insertAL s.topic_queue_table topic_config.topic_name
      (insertAL queue_data_map broker_name queue_data)
    match lookupAL queue_data_map broker_name with
    | none => { s with topic_queue_table := tq2 }
    | some existed_qd =>
      if existed_qd = queue_data then s
      else { s with topic_queue_table := tq2 }
  | none =>
    let tq2 := insertAL s.topic_queue_table topic_config.topic_name [(broker_name, queue_data)]
    { s with topic_queue_table := tq2 }

/-- One step of the topic-deletion-on-registration loop: remove this
broker's QueueData from the topic row, dropping the row when it becomes
empty. -/
def remove_topic_queue_one (tq : List (String × List (String × QueueData)))
    (broker_name topic : String) : List (String × List (String × QueueData)) :=
  match lookupAL tq topic with
  | some queue_data =>
    let queue_data2 := eraseAL queue_data broker_name
    if queue_data2.isEmpty then eraseAL tq topic else insertAL tq topic queue_data2
  | none => tq

/-- The topic-deletion-on-registration step: delete, for each topic in
new_topic_set.difference(old_topic_set), this broker's queue data. -/
def delete_topics_with_registration (s : RIMState) (broker_name : String)
    (topic_keys : List String) : RIMState :=
  let old_topic_set := topic_set_of_broker_name s broker_name
  let new_topic_set := topic_keys.foldl (fun acc k => insertSet acc k) []
  let to_delete_topics := new_topic_set.filter (fun t => ! old_topic_set.contains t)
  let tq2 := to_delete_topics.foldl (fun tq t => remove_topic_queue_one tq broker_name t)
    s.topic_queue_table
  { s with topic_queue_table := tq2 }

/-- The u32 write-permission mask: perm &= !(PERM_WRITE as u32) with
PERM_WRITE = 2 a single bit (modelled from the spec: PermName is not
under src/). -/
def maskNotWrite (perm : Nat) : Nat := perm &&& 4294967293

/-- Merging the wrapper's topicQueueMappingInfoMap into the mapping
table; an entry with an absent bname makes the source unwrap panic,
modelled by none. -/
def merge_topic_queue_mapping (tqm : List (String × List (String × TopicQueueMappingInfo)))
    (entries : List (String × TopicQueueMappingInfo)) :
    Option (List (String × List (String × TopicQueueMappingInfo))) :=
  entries.foldlM
    (fun m p =>
      match p.2.bname with
      | none => none
      | some b => some (insertAL m p.1 (insertAL ((lookupAL m p.1).getD []) b p.2)))
    tqm

/-- The number of entries of the wrapper's topic table (0 when absent). -/
def wrapper_topic_count (w : TopicConfigAndMappingSerializeWrapper) : Nat :=
  match w.topic_config_table with
  | some t => t.length
  | none => 0

/-- One step of the per-topic queue-data upsert loop: mask the WRITE bit
on a copy when the config is new or changed, the broker is a prime slave
and the row has enableActingMaster, then upsert the QueueData. -/
def topic_config_apply_step (a : RegisterArgs) (data_version : DataVersion)
    (register_first is_prime_slave : Bool) (bd : BrokerData) (st : RIMState)
    (p : String × TopicConfig) : RIMState :=
  let config :=
    if (register_first
          || is_topic_config_changed st a.cluster_name a.broker_addr data_version
              a.broker_name p.2.topic_name)
        && is_prime_slave && bd.enable_acting_master then
      { p.2 with perm := maskNotWrite p.2.perm }
    else p.2
  create_and_update_queue_data st a.broker_name config

/-- Steps 8 of the registration algorithm: topic deletion, per-topic
queue-data upsert with the acting-master write mask, and the
topic-queue-mapping merge; none models a panic (absent dataVersion or
absent bname). -/
def apply_topic_block (s : RIMState) (a : RegisterArgs) (bd : BrokerData)
    (register_first is_prime_slave is_master : Bool) : Option RIMState :=
  if is_master || is_prime_slave then
    match a.wrapper.topic_config_table with
    | some tc_table =>
      let s1 :=
        if s.namesrv_config.delete_topic_with_broker_registration
            && a.wrapper.topic_queue_mapping_info_map.isEmpty then
          delete_topics_with_registration s a.broker_name (tc_table.map Prod.fst)
        else s
      match a.wrapper.data_version with
      | some data_version =>
        let s2 := tc_table.foldl
          (topic_config_apply_step a data_version register_first is_prime_slave bd) s1
        if is_broker_topic_config_changed s2 a.cluster_name a.broker_addr data_version
            || register_first then
          match merge_topic_queue_mapping s2.topic_queue_mapping_info_table
              a.wrapper.topic_queue_mapping_info_map with
          | some tqm => some { s2 with topic_queue_mapping_info_table := tqm }
          | none => none
        else some s2
      | none => none
    | none => some s
  else some s

/-- Step 1 of the registration algorithm: insert brokerName into
ClusterAddrTable[clusterName], creating the cluster row when missing. -/
def cluster_admission (ca : List (String × List String)) (cluster_name broker_name : String) :
    List (String × List String) :=
  let ca1 := if containsAL ca cluster_name then ca else insertAL ca cluster_name []
  insertAL ca1 cluster_name (insertSet ((lookupAL ca1 cluster_name).getD []) broker_name)

/-- Step 2 of the registration algorithm: overwrite enableActingMaster
and zoneName on an existing BrokerData row, or insert a fresh one;
returns the new table and registerFirst. -/
def upsert_broker_row (ba : List (String × BrokerData)) (cluster_name broker_name : String)
    (zone_name : Option String) (is_old_version_broker : Bool) :
    List (String × BrokerData) × Bool :=
  match lookupAL ba broker_name with
  | some broker_data =>
    let bd2 := { broker_data with
      enable_acting_master := is_old_version_broker
      zone_name := zone_name }
    (insertAL ba broker_name bd2, false)
  | none =>
    (insertAL ba broker_name (BrokerData.new cluster_name broker_name [] zone_name), true)

/-- Steps 1 to 4 of the registration algorithm (cluster admission, broker
row upsert, min-id snapshot, swap cleanup); returns the updated state,
registerFirst and isMinBrokerIdChanged. -/
def register_pre (s : RIMState) (a : RegisterArgs) : RIMState × Bool × Bool :=
  let ca := cluster_admission s.cluster_addr_table a.cluster_name a.broker_name
  let is_old_version_broker := a.enable_acting_master.getD false
  let ub := upsert_broker_row s.broker_addr_table a.cluster_name a.broker_name
    a.zone_name is_old_version_broker
  let bd0 := (lookupAL ub.1 a.broker_name).getD
    (BrokerData.new a.cluster_name a.broker_name [] a.zone_name)
  let prev_min_broker_id := if bd0.broker_addrs.isEmpty then 0 else minKeys bd0.broker_addrs
  let is_min_broker_id_changed := decide (a.broker_id < prev_min_broker_id)
  let bd1 := bd0.remove_broker_by_addr a.broker_id a.broker_addr
  let ba2 := insertAL ub.1 a.broker_name bd1
  ({ s with
      cluster_addr_table := ca
      broker_addr_table := ba2 },
    ub.2, is_min_broker_id_changed)

/-- The broker row as it stands after the swap cleanup of register_pre
(the point at which the stale-registration and single-topic guards
read it). -/
def broker_row_after_pre (s : RIMState) (a : RegisterArgs) : BrokerData :=
  (lookupAL (register_pre s a).1.broker_addr_table a.broker_name).getD
    (BrokerData.new a.cluster_name a.broker_name [] a.zone_name)

/-- Steps 9 to 12 of the registration algorithm: live-table refresh,
filter-server upsert, result assembly. -/
def finish_register (s : RIMState) (a : RegisterArgs) (now : Int) (bd : BrokerData) :
    RIMState × RegisterBrokerResult :=
  let broker_addr_info := (a.cluster_name, a.broker_addr)
  let bl := insertAL s.broker_live_table broker_addr_info
    ⟨now, DEFAULT_BROKER_CHANNEL_EXPIRED_TIME,
      (a.wrapper.data_version).getD DataVersion.default0, a.ha_server_addr⟩
  let fs :=
    if a.filter_server_list.isEmpty then eraseAL s.filter_server_table broker_addr_info
    else insertAL s.filter_server_table broker_addr_info a.filter_server_list
  let result : RegisterBrokerResult :=
    if a.broker_id = 0 then RegisterBrokerResult.empty
    else
      match lookupAL bd.broker_addrs 0 with
      | some master_addr =>
        match lookupAL bl (a.cluster_name, master_addr) with
        | some info => ⟨info.ha_server_addr, info.ha_server_addr⟩
        | none => RegisterBrokerResult.empty
      | none => RegisterBrokerResult.empty
  ({ s with broker_live_table := bl, filter_server_table := fs }, result)

/-- The registration path from the single-topic guard onward: address
insert, role classification, topic-config application, live and filter
refresh, result assembly and the (unimplemented, panicking) min-id
notification. -/
def register_core (s1 : RIMState) (a : RegisterArgs) (now : Int)
    (register_first0 is_min_broker_id_changed is_old_version_broker : Bool) :
    Option (RIMState × Option RegisterBrokerResult) :=
  let bd1 := (lookupAL s1.broker_addr_table a.broker_name).getD
    (BrokerData.new a.cluster_name a.broker_name [] a.zone_name)
  if ! containsAL bd1.broker_addrs a.broker_id && wrapper_topic_count a.wrapper == 1 then
    some (s1, none)
  else
    let old_addr := lookupAL bd1.broker_addrs a.broker_id
    let bd2 := { bd1 with broker_addrs := insertAL bd1.broker_addrs a.broker_id a.broker_addr }
    let s2 := { s1 with broker_addr_table := insertAL s1.broker_addr_table a.broker_name bd2 }
    let register_first := register_first0 || old_addr.isNone
    let is_master := a.broker_id == 0
    let is_prime_slave :=
      ! is_old_version_broker && ! is_master && (a.broker_id == minKeys bd2.broker_addrs)
    match apply_topic_block s2 a bd2 register_first is_prime_slave is_master with
    | some s4 =>
      let fin := finish_register s4 a now bd2
      if is_min_broker_id_changed && s1.namesrv_config.notify_min_broker_id_changed then none
      else some (fin.1, some fin.2)
    | none => none

/-- register_broker.  The outer none models a panic (an unwrap of an
absent dataVersion on the stale-check path, an absent bname during the
mapping merge, or the todo!() notification stub); some (s, none) is the
single-topic-guard null; some (s, some r) is a normal or
stale-but-present result. -/
def register_broker (s : RIMState) (a : RegisterArgs) (now : Int) :
    Option (RIMState × Option RegisterBrokerResult) :=
  let pre := register_pre s a
  let s1 := pre.1
  let register_first0 := pre.2.1
  let is_min_broker_id_changed := pre.2.2
  let is_old_version_broker := a.enable_acting_master.getD false
  let bd1 := (lookupAL s1.broker_addr_table a.broker_name).getD
    (BrokerData.new a.cluster_name a.broker_name [] a.zone_name)
  match lookupAL bd1.broker_addrs a.broker_id with
  | some old_broker_addr =>
    if old_broker_addr = a.broker_addr then
      register_core s1 a now register_first0 is_min_broker_id_changed is_old_version_broker
    else
      match lookupAL s1.broker_live_table (a.cluster_name, old_broker_addr) with
      | some val =>
        match a.wrapper.data_version with
        | some new_dv =>
          if val.data_version.state_version > new_dv.state_version then
            let bl2 := eraseAL s1.broker_live_table (a.cluster_name, a.broker_addr)
            some ({ s1 with broker_live_table := bl2 }, some RegisterBrokerResult.empty)
          else
            register_core s1 a now register_first0 is_min_broker_id_changed
              is_old_version_broker
        | none => none
      | none =>
        register_core s1 a now register_first0 is_min_broker_id_changed is_old_version_broker
  | none =>
    register_core s1 a now register_first0 is_min_broker_id_changed is_old_version_broker

/-- Modelled from the spec: PermName::is_writeable(perm as i8) tests the
single PERM_WRITE bit (value 2); the i8 cast keeps the low byte, which
contains the bit. -/
def permIsWriteable (perm : Nat) : Bool := (perm &&& 2) == 2

/-- The in-route acting-master rewrite of one cloned BrokerData: when the
broker has addresses but no master entry and enableActingMaster is set,
and its QueueData is not writeable, move the smallest-id address to key
MASTER_ID. -/
def acting_master_rewrite (bd : BrokerData) (queue_datas : List QueueData) : BrokerData :=
  if bd.broker_addrs.isEmpty || containsAL bd.broker_addrs 0
      || ! bd.enable_acting_master then bd
  else
    match queue_datas.find? (fun qd => qd.broker_name == bd.broker_name) with
    | some qd =>
      if ! permIsWriteable qd.perm then
        if bd.broker_addrs.isEmpty then bd
        else
          let min_broker_id := minKeys bd.broker_addrs
          match lookupAL bd.broker_addrs min_broker_id with
          | some acting_master_addr =>
            let addrs := insertAL (eraseAL bd.broker_addrs min_broker_id) 0 acting_master_addr
            { bd with broker_addrs := addrs }
          | none => bd
      else bd
    | none => bd

/-- One pickup step over a broker name: resolve the BrokerData, append
its clone, and copy matching filter-server rows keyed by address. -/
def pickup_broker_step (s : RIMState) (acc : List BrokerData × List (String × List String))
    (broker_name : String) : List BrokerData × List (String × List String) :=
  match lookupAL s.broker_addr_table broker_name with
  | some broker_data =>
    let fst2 :=
      if s.filter_server_table.isEmpty then acc.2
      else
        broker_data.broker_addrs.foldl
          (fun f p =>
            match lookupAL s.filter_server_table (broker_data.cluster, p.2) with
            | some filter_server_list => insertAL f p.2 filter_server_list
            | none => f)
          acc.2
    (acc.1 ++ [broker_data], fst2)
  | none => acc

/-- pickup_topic_route_data: assemble a topic's route view, with the
acting-master promotion applied when supportActingMaster is enabled. -/
def pickup_topic_route_data (s : RIMState) (topic : String) : Option TopicRouteData :=
  match lookupAL s.topic_queue_table topic with
  | none => none
  | some queue_data_map =>
    let queue_datas := queue_data_map.map Prod.snd
    let broker_name_set := queue_data_map.foldl (fun acc p => insertSet acc p.1) []
    let bf := broker_name_set.foldl (fun acc n => pickup_broker_step s acc n) ([], [])
    if bf.1.isEmpty then none
    else
      let trd : TopicRouteData :=
        ⟨none, bf.1, queue_datas, bf.2,
          some ((lookupAL s.topic_queue_mapping_info_table topic).getD [])⟩
      if ! s.namesrv_config.support_acting_master then some trd
      else if topic.startsWith "rmq_sys_SYNC_BROKER_MEMBER_" then some trd
      else if trd.broker_datas.isEmpty || trd.queue_datas.isEmpty then some trd
      else
        let need_acting_master := trd.broker_datas.any
          (fun bd => ! bd.broker_addrs.isEmpty && ! containsAL bd.broker_addrs 0)
        if ! need_acting_master then some trd
        else
          let bds := trd.broker_datas.map (fun bd => acting_master_rewrite bd trd.queue_datas)
          some { trd with broker_datas := bds }

/-- Zero out a live entry's heartbeat timestamp. -/
def scrub_live_info (b : BrokerLiveInfo) : BrokerLiveInfo :=
  { b with last_update_timestamp := 0 }

/-- The state with every BrokerLiveTable timestamp zeroed: equality of
scrubbed states is equality of all six tables up to
lastUpdateTimestamp. -/
def scrub_timestamps (s : RIMState) : RIMState :=
  let bl := s.broker_live_table.map (fun p => (p.1, scrub_live_info p.2))
  { s with broker_live_table := bl }

/-- The states reachable from an empty RIM by register_broker calls that
do not panic. -/
inductive ReachableRIM : RIMState → Prop where
  | init : ∀ cfg, ReachableRIM (empty_rim cfg)
  | step : ∀ s a now s2 r, ReachableRIM s → register_broker s a now = some (s2, r) →
      ReachableRIM s2

/-- Invariant 1 of the spec as claimed: every brokerName in a
ClusterAddrTable row has a BrokerAddrTable row whose stored clusterName
matches the indexing clusterName. -/
def cluster_broker_matching (s : RIMState) : Prop :=
  ∀ c st, lookupAL s.cluster_addr_table c = some st →
    ∀ n, n ∈ st → ∃ bd, lookupAL s.broker_addr_table n = some bd ∧ bd.cluster = c

/-- The weakened invariant: every brokerName in a ClusterAddrTable row
has a BrokerAddrTable row (whose clusterName may differ from the
indexing cluster). -/
def cluster_broker_row_exists (s : RIMState) : Prop :=
  ∀ c st, lookupAL s.cluster_addr_table c = some st →
    ∀ n, n ∈ st → ∃ bd, lookupAL s.broker_addr_table n = some bd

/-- The stale-registration condition of register_broker, phrased on the
state after the swap cleanup: the same brokerId already maps to a
different address, that address has a live entry, and its stored
stateVersion is strictly greater than the incoming wrapper's. -/
def stale_registration (s : RIMState) (a : RegisterArgs) : Prop :=
  ∃ old_broker_addr val new_dv,
    lookupAL (broker_row_after_pre s a).broker_addrs a.broker_id = some old_broker_addr ∧
    old_broker_addr ≠ a.broker_addr ∧
    lookupAL (register_pre s a).1.broker_live_table (a.cluster_name, old_broker_addr)
      = some val ∧
    a.wrapper.data_version = some new_dv ∧
    val.data_version.state_version > new_dv.state_version

/-- The state returned by the stale-registration early exit: the
register_pre state with the incoming broker's live entry evicted. -/
def stale_exit_state (s : RIMState) (a : RegisterArgs) : RIMState :=
  let s1 := (register_pre s a).1
  let bl2 := eraseAL s1.broker_live_table (a.cluster_name, a.broker_addr)
  { s1 with broker_live_table := bl2 }

/-- The QueueData built by create_and_update_queue_data. -/
def queue_data_of (broker_name : String) (topic_config : TopicConfig) : QueueData :=
  ⟨broker_name, topic_config.write_queue_nums, topic_config.read_queue_nums,
    topic_config.perm, topic_config.topic_sys_flag⟩

/-- The extensional effect of create_and_update_queue_data on the
topic-queue table: assign this broker's QueueData into the topic row. -/
def tq_assign (broker_name : String) (topic_config : TopicConfig)
    (m : List (String × List (String × QueueData))) :
    List (String × List (String × QueueData)) :=
  insertAL m topic_config.topic_name
    (insertAL ((lookupAL m topic_config.topic_name).getD []) broker_name
      (queue_data_of broker_name topic_config))

/-- The whole per-topic upsert loop as assignments on the table. -/
def tq_assign_fold (broker_name : String) (tc_table : List (String × TopicConfig))
    (m : List (String × List (String × QueueData))) :
    List (String × List (String × QueueData)) :=
  tc_table.foldl (fun m2 p => tq_assign broker_name p.2 m2) m

/-- The deduplicated set of incoming topic keys. -/
def new_topic_set_of (topic_keys : List String) : List String :=
  topic_keys.foldl (fun acc k => insertSet acc k) []

/-- The topics the deletion step visits: incoming keys minus the topics
this broker already contributes to. -/
def to_delete_list (s : RIMState) (broker_name : String) (topic_keys : List String) :
    List String :=
  (new_topic_set_of topic_keys).filter
    (fun t => ! (topic_set_of_broker_name s broker_name).contains t)

/-- The broker row after the address insert of the full registration
path. -/
def bd2_full (s : RIMState) (a : RegisterArgs) : BrokerData :=
  let row := broker_row_after_pre s a
  { row with broker_addrs := insertAL row.broker_addrs a.broker_id a.broker_addr }

/-- The state after the address insert of the full registration path. -/
def s2core_full (s : RIMState) (a : RegisterArgs) : RIMState :=
  let s1 := (register_pre s a).1
  { s1 with broker_addr_table := insertAL s1.broker_addr_table a.broker_name (bd2_full s a) }

/-- registerFirst as computed on the full path. -/
def rf_full (s : RIMState) (a : RegisterArgs) : Bool :=
  (register_pre s a).2.1
    || (lookupAL (broker_row_after_pre s a).broker_addrs a.broker_id).isNone

/-- isPrimeSlave as computed on the full path. -/
def prime_full (s : RIMState) (a : RegisterArgs) : Bool :=
  ! (a.enable_acting_master.getD false) && ! (a.broker_id == 0)
    && (a.broker_id == minKeys (bd2_full s a).broker_addrs)

/-- The live-table entry written by finish_register. -/
def live_info_of (a : RegisterArgs) (now : Int) : BrokerLiveInfo :=
  ⟨now, DEFAULT_BROKER_CHANNEL_EXPIRED_TIME,
    (a.wrapper.data_version).getD DataVersion.default0, a.ha_server_addr⟩

/-- The filter-server update performed by finish_register. -/
def fs_update (a : RegisterArgs) (fs : List ((String × String) × List String)) :
    List ((String × String) × List String) :=
  if a.filter_server_list.isEmpty then eraseAL fs (a.cluster_name, a.broker_addr)
  else insertAL fs (a.cluster_name, a.broker_addr) a.filter_server_list

/-- A concrete argument tuple exercising the fresh-registration path
(no enableActingMaster flag, empty wrapper). -/
def c7args : RegisterArgs :=
  ⟨"c", "addrA", "b", 0, "ha", none, none, none, ⟨none, none, []⟩, []⟩

/-- The same tuple with enableActingMaster = Some(true). -/
def c7args_eam : RegisterArgs :=
  ⟨"c", "addrA", "b", 0, "ha", none, none, some true, ⟨none, none, []⟩, []⟩

/-- A namesrv configuration with all three switches off. -/
def c7cfg : NamesrvConfig := ⟨false, false, false⟩

/-- The state after one registration of c7args on the empty RIM. -/
def c7once : RIMState :=
  ((register_broker (empty_rim c7cfg) c7args 5).getD (empty_rim c7cfg, none)).1

/-- The result of that registration. -/
def c7once_r : Option RegisterBrokerResult :=
  ((register_broker (empty_rim c7cfg) c7args 5).getD (empty_rim c7cfg, none)).2

/-- The state after registering c7args a second time. -/
def c7twice : RIMState :=
  ((register_broker c7once c7args 6).getD (c7once, none)).1

/-- The result of the second registration. -/
def c7twice_r : Option RegisterBrokerResult :=
  ((register_broker c7once c7args 6).getD (c7once, none)).2

/-- The state after one registration of c7args_eam on the empty RIM. -/
def c7once_eam : RIMState :=
  ((register_broker (empty_rim c7cfg) c7args_eam 5).getD (empty_rim c7cfg, none)).1

/-- The state after registering c7args_eam a second time. -/
def c7twice_eam : RIMState :=
  ((register_broker c7once_eam c7args_eam 6).getD (c7once_eam, none)).1

/-! ### Association-list lemmas -/

section AListLemmas

variable {K : Type} {V W : Type} [DecidableEq K]

@[simp] theorem lookupAL_nil (k : K) : lookupAL ([] : List (K × V)) k = none := rfl

theorem lookupAL_cons (k0 k : K) (v : V) (t : List (K × V)) :
    lookupAL ((k, v) :: t) k0 = if k = k0 then some v else lookupAL t k0 := rfl

@[simp] theorem lookupAL_insertAL_self (l : List (K × V)) (k : K) (v : V) :
    lookupAL (insertAL l k v) k = some v := by
  induction l with
  | nil => simp [insertAL, lookupAL]
  | cons p t ih =>
    obtain ⟨k1, v1⟩ := p
    by_cases h : k1 = k
    · subst h
      simp [insertAL, lookupAL]
    · simp [insertAL, lookupAL, h, ih]

theorem lookupAL_insertAL_ne (l : List (K × V)) (k k2 : K) (v : V) (h : k2 ≠ k) :
    lookupAL (insertAL l k v) k2 = lookupAL l k2 := by
  have hne : ¬ k = k2 := fun hh => h hh.symm
  induction l with
  | nil => simp [insertAL, lookupAL, hne]
  | cons p t ih =>
    obtain ⟨k1, v1⟩ := p
    by_cases h1 : k1 = k
    · subst h1
      simp [insertAL, lookupAL, hne]
    · simp [insertAL, lookupAL, h1, ih]

theorem insertAL_insertAL_self (l : List (K × V)) (k : K) (v w : V) :
    insertAL (insertAL l k v) k w = insertAL l k w := by
  induction l with
  | nil => simp [insertAL]
  | cons p t ih =>
    obtain ⟨k1, v1⟩ := p
    by_cases h : k1 = k
    · subst h
      simp [insertAL]
    · simp [insertAL, h, ih]

theorem insertAL_of_lookup_eq (l : List (K × V)) (k : K) (v : V)
    (h : lookupAL l k = some v) : insertAL l k v = l := by
  induction l with
  | nil => simp [lookupAL] at h
  | cons p t ih =>
    obtain ⟨k1, v1⟩ := p
    by_cases h1 : k1 = k
    · subst h1
      simp [lookupAL] at h
      simp [insertAL, h]
    · simp [lookupAL, h1] at h
      simp [insertAL, h1, ih h]

@[simp] theorem lookupAL_eraseAL_self (l : List (K × V)) (k : K) :
    lookupAL (eraseAL l k) k = none := by
  induction l with
  | nil => simp [eraseAL]
  | cons p t ih =>
    obtain ⟨k1, v1⟩ := p
    by_cases h : k1 = k
    · simpa [eraseAL, h]
    · simp [eraseAL, lookupAL, h, ih]

theorem lookupAL_eraseAL_ne (l : List (K × V)) (k k2 : K) (h : k2 ≠ k) :
    lookupAL (eraseAL l k) k2 = lookupAL l k2 := by
  induction l with
  | nil => simp [eraseAL]
  | cons p t ih =>
    obtain ⟨k1, v1⟩ := p
    by_cases h1 : k1 = k
    · subst h1
      have hne : ¬ k1 = k2 := fun hh => h hh.symm
      simp [eraseAL, lookupAL, hne, ih]
    · simp [eraseAL, lookupAL, h1, ih]

theorem eraseAL_eraseAL (l : List (K × V)) (k : K) :
    eraseAL (eraseAL l k) k = eraseAL l k := by
  induction l with
  | nil => simp [eraseAL]
  | cons p t ih =>
    obtain ⟨k1, v1⟩ := p
    by_cases h : k1 = k
    · simp [eraseAL, h, ih]
    · simp [eraseAL, h, ih]

theorem eraseAL_of_not_contains (l : List (K × V)) (k : K)
    (h : containsAL l k = false) : eraseAL l k = l := by
  induction l with
  | nil => simp [eraseAL]
  | cons p t ih =>
    obtain ⟨k1, v1⟩ := p
    by_cases h1 : k1 = k
    · subst h1
      simp [containsAL, lookupAL] at h
    · simp [containsAL, lookupAL, h1] at h
      have ht : eraseAL t k = t := ih (by simp [containsAL, h])
      simp [eraseAL, h1, ht]

@[simp] theorem containsAL_insertAL_self (l : List (K × V)) (k : K) (v : V) :
    containsAL (insertAL l k v) k = true := by
  simp [containsAL]

theorem containsAL_insertAL_ne (l : List (K × V)) (k k2 : K) (v : V) (h : k2 ≠ k) :
    containsAL (insertAL l k v) k2 = containsAL l k2 := by
  simp [containsAL, lookupAL_insertAL_ne l k k2 v h]

theorem lookupAL_mem (l : List (K × V)) (k : K) (v : V) (h : lookupAL l k = some v) :
    (k, v) ∈ l := by
  induction l with
  | nil => simp [lookupAL] at h
  | cons p t ih =>
    obtain ⟨k1, v1⟩ := p
    by_cases h1 : k1 = k
    · subst h1
      simp [lookupAL] at h
      simp [h]
    · simp [lookupAL, h1] at h
      simp [ih h]

theorem lookupAL_isSome_ex (l : List (K × V)) (k : K)
    (h : (lookupAL l k).isSome = true) : ∃ v, lookupAL l k = some v := by
  cases hh : lookupAL l k with
  | none => rw [hh] at h; simp at h
  | some v => exact ⟨v, rfl⟩

end AListLemmas

theorem mem_insertSet_self {K : Type} [DecidableEq K] (l : List K) (k : K) :
    k ∈ insertSet l k := by
  by_cases h : k ∈ l <;> simp [insertSet, h]

theorem insertSet_of_mem {K : Type} [DecidableEq K] (l : List K) (k : K) (h : k ∈ l) :
    insertSet l k = l := by
  simp [insertSet, h]

theorem mem_insertSet {K : Type} [DecidableEq K] (l : List K) (k n : K)
    (h : n ∈ insertSet l k) : n ∈ l ∨ n = k := by
  by_cases h1 : k ∈ l
  · rw [insertSet_of_mem l k h1] at h
    exact Or.inl h
  · simp [insertSet, h1] at h
    exact h

theorem minKeys_foldl_le (t : List (Int × String)) (a : Int) :
    t.foldl (fun m q => min m q.1) a ≤ a := by
  induction t generalizing a with
  | nil => simp
  | cons q t3 ih =>
    calc List.foldl (fun m p => min m p.1) (min a q.1) t3 ≤ min a q.1 := ih (min a q.1)
    _ ≤ a := min_le_left a q.1

theorem minKeys_foldl_le_mem (t : List (Int × String)) (a k : Int) (v : String)
    (h : (k, v) ∈ t) : t.foldl (fun m q => min m q.1) a ≤ k := by
  induction t generalizing a with
  | nil => simp at h
  | cons q t3 ih =>
    simp at h
    rcases h with h | h
    · have h1 : List.foldl (fun m p => min m p.1) (min a q.1) t3 ≤ min a q.1 :=
        minKeys_foldl_le t3 (min a q.1)
      have h2 : min a q.1 ≤ k := by rw [← h]; exact min_le_right a k
      exact le_trans h1 h2
    · exact ih (min a q.1) h

theorem minKeys_le (l : List (Int × String)) (k : Int) (v : String)
    (h : (k, v) ∈ l) : minKeys l ≤ k := by
  cases l with
  | nil => simp at h
  | cons p t =>
    simp at h
    rcases h with h | h
    · rw [minKeys, ← h]
      exact minKeys_foldl_le t k
    · rw [minKeys]
      exact minKeys_foldl_le_mem t p.1 k v h

/-! ### Change detection (C3) -/

/-- C3 counterexample: with no live entry for the address,
is_broker_topic_config_changed returns false, while the claim (absent or
unequal implies true) demands true. -/
theorem C3_counterexample :
    ¬ (is_broker_topic_config_changed (empty_rim ⟨false, false, false⟩) "c" "a" ⟨1, 0, 0⟩ = true
        ↔ (query_broker_topic_config (empty_rim ⟨false, false, false⟩) "c" "a" = none
            ∨ query_broker_topic_config (empty_rim ⟨false, false, false⟩) "c" "a"
                ≠ some ⟨1, 0, 0⟩)) := by
  decide

/-- C3, amended: is_broker_topic_config_changed is true iff a stored
DataVersion exists for (clusterName, brokerAddr) and is not structurally
equal to the incoming one; when no live entry exists it returns false. -/
theorem C3_change_detection_iff (s : RIMState) (cluster_name broker_addr : String)
    (data_version : DataVersion) :
    is_broker_topic_config_changed s cluster_name broker_addr data_version = true
      ↔ ∃ pre, query_broker_topic_config s cluster_name broker_addr = some pre
          ∧ pre ≠ data_version := by
  unfold is_broker_topic_config_changed
  cases h : query_broker_topic_config s cluster_name broker_addr with
  | none => simp
  | some pre =>
    by_cases he : pre = data_version
    · simp [he]
    · simp [he]

/-! ### The topic-deletion step (C9) -/

theorem topic_set_fold_mem (broker_name : String)
    (L : List (String × List (String × QueueData))) (acc : List String) (t : String) :
    t ∈ L.foldl (fun acc p => if containsAL p.2 broker_name then acc ++ [p.1] else acc) acc
      ↔ t ∈ acc ∨ ∃ row, (t, row) ∈ L ∧ containsAL row broker_name = true := by
  induction L generalizing acc with
  | nil => simp
  | cons p L2 ih =>
    obtain ⟨k, row⟩ := p
    by_cases hc : containsAL row broker_name = true
    · rw [List.foldl_cons]
      simp only [hc, if_pos]
      rw [ih]
      constructor
      · intro h
        rcases h with h | h
        · rcases List.mem_append.mp h with h | h
          · exact Or.inl h
          · simp at h
            exact Or.inr ⟨row, by simp [h, hc]⟩
        · obtain ⟨r2, hr2, hcr2⟩ := h
          exact Or.inr ⟨r2, by simp [hr2], hcr2⟩
      · intro h
        rcases h with h | h
        · exact Or.inl (List.mem_append.mpr (Or.inl h))
        · obtain ⟨r2, hr2, hcr2⟩ := h
          simp at hr2
          rcases hr2 with hr2 | hr2
          · exact Or.inl (List.mem_append.mpr (Or.inr (by simp [hr2.1])))
          · exact Or.inr ⟨r2, hr2, hcr2⟩
    · rw [List.foldl_cons]
      simp only [hc, if_neg, if_false]
      rw [ih]
      constructor
      · intro h
        rcases h with h | h
        · exact Or.inl h
        · obtain ⟨r2, hr2, hcr2⟩ := h
          exact Or.inr ⟨r2, by simp [hr2], hcr2⟩
      · intro h
        rcases h with h | h
        · exact Or.inl h
        · obtain ⟨r2, hr2, hcr2⟩ := h
          simp at hr2
          rcases hr2 with hr2 | hr2
          · exfalso
            apply hc
            rw [← hr2.2]
            exact hcr2
          · exact Or.inr ⟨r2, hr2, hcr2⟩

theorem not_mem_topic_set (s : RIMState) (broker_name t : String)
    (h : t ∉ topic_set_of_broker_name s broker_name) :
    ∀ row, lookupAL s.topic_queue_table t = some row → containsAL row broker_name = false := by
  intro row hrow
  by_contra hcon
  apply h
  unfold topic_set_of_broker_name
  rw [topic_set_fold_mem]
  exact Or.inr ⟨row, lookupAL_mem _ _ _ hrow, by simpa using hcon⟩

theorem remove_topic_queue_one_id (tq : List (String × List (String × QueueData)))
    (broker_name t : String)
    (hne : ∀ row, lookupAL tq t = some row → row ≠ [])
    (hnc : ∀ row, lookupAL tq t = some row → containsAL row broker_name = false) :
    remove_topic_queue_one tq broker_name t = tq := by
  unfold remove_topic_queue_one
  cases hrow : lookupAL tq t with
  | none => simp
  | some row =>
    have h1 : eraseAL row broker_name = row := eraseAL_of_not_contains _ _ (hnc row hrow)
    have h2 : row.isEmpty = false := by
      cases row with
      | nil => exact absurd rfl (hne [] hrow)
      | cons a b => rfl
    simp only [h1, h2, if_false, Bool.false_eq_true]
    exact insertAL_of_lookup_eq _ _ _ hrow

/-- C9: the topic-deletion-on-registration step never removes a QueueData
entry: in a state whose topic rows are all non-empty, every topic in
new_topic_set minus old_topic_set has no QueueData for this broker, so
the step leaves the whole state unchanged. -/
theorem C9_delete_step_no_removal (s : RIMState) (broker_name : String)
    (topic_keys : List String)
    (hne : ∀ p ∈ s.topic_queue_table, p.2 ≠ ([] : List (String × QueueData))) :
    delete_topics_with_registration s broker_name topic_keys = s := by
  have hstep : ∀ (l : List String),
      (∀ t, t ∈ l → t ∉ topic_set_of_broker_name s broker_name) →
      l.foldl (fun tq t => remove_topic_queue_one tq broker_name t) s.topic_queue_table
        = s.topic_queue_table := by
    intro l
    induction l with
    | nil => intro _; rfl
    | cons t rest ih =>
      intro hl
      rw [List.foldl_cons]
      rw [remove_topic_queue_one_id s.topic_queue_table broker_name t
        (fun row hrow => hne (t, row) (lookupAL_mem _ _ _ hrow))
        (not_mem_topic_set s broker_name t (hl t (by simp)))]
      exact ih (fun t2 ht2 => hl t2 (by simp [ht2]))
  unfold delete_topics_with_registration
  dsimp only
  rw [hstep]
  intro t ht
  have hmem := (List.mem_filter.mp ht).2
  simp at hmem
  exact hmem

/-- C9 witness: a concrete state with one non-empty topic row and a
deletion pass over a disjoint topic set leaves the state unchanged. -/
theorem C9_delete_step_no_removal_witness :
    delete_topics_with_registration
      ⟨[("T", [("x", ⟨"x", 1, 1, 6, 0⟩)])], [], [], [], [], [], ⟨true, false, false⟩⟩
      "b" ["T", "U"]
      = ⟨[("T", [("x", ⟨"x", 1, 1, 6, 0⟩)])], [], [], [], [], [], ⟨true, false, false⟩⟩ :=
  C9_delete_step_no_removal _ "b" ["T", "U"] (by decide)

/-! ### Structural lemmas about register_broker -/

/-- register_broker unfolded once: the stale-check dispatch over the
state produced by register_pre. -/
theorem register_broker_eq (s : RIMState) (a : RegisterArgs) (now : Int) :
    register_broker s a now =
      match lookupAL (broker_row_after_pre s a).broker_addrs a.broker_id with
      | some old_broker_addr =>
        if old_broker_addr = a.broker_addr then
          register_core (register_pre s a).1 a now (register_pre s a).2.1
            (register_pre s a).2.2 (a.enable_acting_master.getD false)
        else
          match lookupAL (register_pre s a).1.broker_live_table
              (a.cluster_name, old_broker_addr) with
          | some val =>
            match a.wrapper.data_version with
            | some new_dv =>
              if val.data_version.state_version > new_dv.state_version then
                some (stale_exit_state s a, some RegisterBrokerResult.empty)
              else
                register_core (register_pre s a).1 a now (register_pre s a).2.1
                  (register_pre s a).2.2 (a.enable_acting_master.getD false)
            | none => none
          | none =>
            register_core (register_pre s a).1 a now (register_pre s a).2.1
              (register_pre s a).2.2 (a.enable_acting_master.getD false)
      | none =>
        register_core (register_pre s a).1 a now (register_pre s a).2.1
          (register_pre s a).2.2 (a.enable_acting_master.getD false) := rfl

/-- The broker row read inside register_core coincides with
broker_row_after_pre when register_core is applied to the state of
register_pre. -/
theorem register_core_row (s : RIMState) (a : RegisterArgs) :
    (lookupAL (register_pre s a).1.broker_addr_table a.broker_name).getD
      (BrokerData.new a.cluster_name a.broker_name [] a.zone_name)
      = broker_row_after_pre s a := rfl

/-- A some-(state, null) outcome of register_core comes only from the
single-topic guard, and then the state is untouched. -/
theorem register_core_none_shape (s1 : RIMState) (a : RegisterArgs) (now : Int)
    (rf mc io : Bool) (s2 : RIMState)
    (h : register_core s1 a now rf mc io = some (s2, none)) :
    s2 = s1
    ∧ containsAL ((lookupAL s1.broker_addr_table a.broker_name).getD
        (BrokerData.new a.cluster_name a.broker_name [] a.zone_name)).broker_addrs
        a.broker_id = false
    ∧ wrapper_topic_count a.wrapper = 1 := by
  unfold register_core at h
  dsimp only at h
  split at h
  case isTrue hcond =>
    simp only [Option.some.injEq, Prod.mk.injEq] at h
    rw [Bool.and_eq_true, Bool.not_eq_true', beq_iff_eq] at hcond
    exact ⟨h.1.symm, hcond.1, hcond.2⟩
  case isFalse hcond =>
    exfalso
    split at h
    · split at h
      · simp at h
      · simp at h
    · simp at h

/-- When the single-topic guard holds, register_core returns the
untouched state and null. -/
theorem register_core_guard (s1 : RIMState) (a : RegisterArgs) (now : Int)
    (rf mc io : Bool)
    (h1 : containsAL ((lookupAL s1.broker_addr_table a.broker_name).getD
        (BrokerData.new a.cluster_name a.broker_name [] a.zone_name)).broker_addrs
        a.broker_id = false)
    (h2 : wrapper_topic_count a.wrapper = 1) :
    register_core s1 a now rf mc io = some (s1, none) := by
  unfold register_core
  dsimp only
  rw [if_pos]
  rw [Bool.and_eq_true, Bool.not_eq_true', beq_iff_eq]
  exact ⟨h1, h2⟩

/-- C2: register_broker returns null (the inner none) if and only if, at
the point after the swap cleanup and before the address insert, the
broker row does not contain brokerId and the wrapper's topic table has
exactly one entry; no other input condition produces null. -/
theorem C2_null_iff_single_topic_guard (s : RIMState) (a : RegisterArgs) (now : Int) :
    (∃ p, register_broker s a now = some p ∧ p.2 = none)
      ↔ (containsAL (broker_row_after_pre s a).broker_addrs a.broker_id = false
          ∧ wrapper_topic_count a.wrapper = 1) := by
  rw [register_broker_eq]
  cases hlk : lookupAL (broker_row_after_pre s a).broker_addrs a.broker_id with
  | none =>
    have hcont : containsAL (broker_row_after_pre s a).broker_addrs a.broker_id = false := by
      simp [containsAL, hlk]
    constructor
    · rintro ⟨⟨p1, p2⟩, hp, hp2⟩
      dsimp only at hp2
      subst hp2
      have hshape := register_core_none_shape _ a now _ _ _ _ hp
      exact ⟨hcont, hshape.2.2⟩
    · rintro ⟨h1, h2⟩
      refine ⟨((register_pre s a).1, none), ?_, rfl⟩
      exact register_core_guard _ a now _ _ _ (by rw [register_core_row]; exact h1) h2
  | some old_broker_addr =>
    have hcont : containsAL (broker_row_after_pre s a).broker_addrs a.broker_id = true := by
      simp [containsAL, hlk]
    constructor
    · rintro ⟨⟨p1, p2⟩, hp, hp2⟩
      dsimp only at hp2
      subst hp2
      dsimp only at hp
      exfalso
      by_cases heq : old_broker_addr = a.broker_addr
      · rw [if_pos heq] at hp
        have hshape := register_core_none_shape _ a now _ _ _ _ hp
        rw [register_core_row] at hshape
        rw [hshape.2.1] at hcont
        exact Bool.false_ne_true hcont
      · rw [if_neg heq] at hp
        cases hlive : lookupAL (register_pre s a).1.broker_live_table
            (a.cluster_name, old_broker_addr) with
        | none =>
          rw [hlive] at hp
          dsimp only at hp
          have hshape := register_core_none_shape _ a now _ _ _ _ hp
          rw [register_core_row] at hshape
          rw [hshape.2.1] at hcont
          exact Bool.false_ne_true hcont
        | some val =>
          rw [hlive] at hp
          dsimp only at hp
          cases hdv : a.wrapper.data_version with
          | none => rw [hdv] at hp; exact Option.noConfusion hp
          | some new_dv =>
            rw [hdv] at hp
            dsimp only at hp
            by_cases hgt : val.data_version.state_version > new_dv.state_version
            · rw [if_pos hgt] at hp
              simp at hp
            · rw [if_neg hgt] at hp
              have hshape := register_core_none_shape _ a now _ _ _ _ hp
              rw [register_core_row] at hshape
              rw [hshape.2.1] at hcont
              exact Bool.false_ne_true hcont
    · rintro ⟨h1, h2⟩
      rw [h1] at hcont
      exact absurd hcont Bool.false_ne_true

/-- A normal (non-null) register_core outcome always ends with a live
entry for the incoming (clusterName, brokerAddr). -/
theorem register_core_some_live (s1 : RIMState) (a : RegisterArgs) (now : Int)
    (rf mc io : Bool) (s2 : RIMState) (r : RegisterBrokerResult)
    (h : register_core s1 a now rf mc io = some (s2, some r)) :
    ∃ info, lookupAL s2.broker_live_table (a.cluster_name, a.broker_addr) = some info := by
  unfold register_core at h
  dsimp only at h
  split at h
  · simp at h
  · split at h
    case h_1 s4 hblock =>
      split at h
      · simp at h
      · simp only [Option.some.injEq, Prod.mk.injEq] at h
        rw [← h.1]
        unfold finish_register
        dsimp only
        exact ⟨_, lookupAL_insertAL_self _ _ _⟩
    case h_2 => simp at h

/-- C1: with a conflicting same-id different-address row after the swap
cleanup and a live entry for the old address, register_broker evicts the
incoming broker's live entry and returns a present-but-empty result
exactly when the stored stateVersion is strictly greater than the
incoming wrapper's; otherwise the call proceeds as a normal update. -/
theorem C1_stale_registration_guard (s : RIMState) (a : RegisterArgs) (now : Int)
    (old_broker_addr : String) (val : BrokerLiveInfo) (new_dv : DataVersion)
    (h_old : lookupAL (broker_row_after_pre s a).broker_addrs a.broker_id
      = some old_broker_addr)
    (h_ne : old_broker_addr ≠ a.broker_addr)
    (h_live : lookupAL (register_pre s a).1.broker_live_table
      (a.cluster_name, old_broker_addr) = some val)
    (h_dv : a.wrapper.data_version = some new_dv) :
    (val.data_version.state_version > new_dv.state_version →
        register_broker s a now = some (stale_exit_state s a, some RegisterBrokerResult.empty)
          ∧ lookupAL (stale_exit_state s a).broker_live_table
              (a.cluster_name, a.broker_addr) = none)
    ∧ (val.data_version.state_version ≤ new_dv.state_version →
        register_broker s a now = register_core (register_pre s a).1 a now
          (register_pre s a).2.1 (register_pre s a).2.2 (a.enable_acting_master.getD false))
    ∧ ((∃ s2, register_broker s a now = some (s2, some RegisterBrokerResult.empty)
          ∧ lookupAL s2.broker_live_table (a.cluster_name, a.broker_addr) = none)
        ↔ val.data_version.state_version > new_dv.state_version) := by
  have hreg : register_broker s a now =
      (if val.data_version.state_version > new_dv.state_version then
        some (stale_exit_state s a, some RegisterBrokerResult.empty)
      else
        register_core (register_pre s a).1 a now (register_pre s a).2.1
          (register_pre s a).2.2 (a.enable_acting_master.getD false)) := by
    rw [register_broker_eq, h_old]
    dsimp only
    rw [if_neg h_ne, h_live]
    dsimp only
    rw [h_dv]
  have herased : lookupAL (stale_exit_state s a).broker_live_table
      (a.cluster_name, a.broker_addr) = none := by
    unfold stale_exit_state
    dsimp only
    exact lookupAL_eraseAL_self _ _
  refine ⟨?_, ?_, ?_⟩
  · intro hgt
    rw [hreg, if_pos hgt]
    exact ⟨rfl, herased⟩
  · intro hle
    rw [hreg, if_neg (not_lt.mpr hle)]
  · constructor
    · rintro ⟨s2, hs2, hnone⟩
      by_contra hgt
      rw [hreg, if_neg hgt] at hs2
      obtain ⟨info, hinfo⟩ := register_core_some_live _ a now _ _ _ _ _ hs2
      rw [hinfo] at hnone
      exact Option.noConfusion hnone
    · intro hgt
      rw [hreg, if_pos hgt]
      exact ⟨stale_exit_state s a, rfl, herased⟩

/-- C1 witness: a concrete stale registration (stored stateVersion 5,
incoming 3) is rejected with a present-but-empty result and its live
entry evicted, and a concrete refresh (incoming 5, equal) proceeds as a
normal update. -/
theorem C1_stale_registration_guard_witness :
    (register_broker
        ⟨[], [("b", ⟨"c", "b", [(0, "A")], none, false⟩)], [],
          [(("c", "A"), ⟨7, 120000, ⟨5, 0, 0⟩, "haA"⟩)], [], [], ⟨false, false, false⟩⟩
        ⟨"c", "B", "b", 0, "ha2", none, none, none, ⟨some ⟨3, 0, 0⟩, none, []⟩, []⟩ 9
      = some (stale_exit_state
          ⟨[], [("b", ⟨"c", "b", [(0, "A")], none, false⟩)], [],
            [(("c", "A"), ⟨7, 120000, ⟨5, 0, 0⟩, "haA"⟩)], [], [], ⟨false, false, false⟩⟩
          ⟨"c", "B", "b", 0, "ha2", none, none, none, ⟨some ⟨3, 0, 0⟩, none, []⟩, []⟩,
        some RegisterBrokerResult.empty))
    ∧ lookupAL (stale_exit_state
          ⟨[], [("b", ⟨"c", "b", [(0, "A")], none, false⟩)], [],
            [(("c", "A"), ⟨7, 120000, ⟨5, 0, 0⟩, "haA"⟩)], [], [], ⟨false, false, false⟩⟩
          ⟨"c", "B", "b", 0, "ha2", none, none, none, ⟨some ⟨3, 0, 0⟩, none, []⟩, []⟩
        ).broker_live_table ("c", "B") = none :=
  (C1_stale_registration_guard _ _ 9 "A" ⟨7, 120000, ⟨5, 0, 0⟩, "haA"⟩ ⟨3, 0, 0⟩
    (by decide) (by decide) (by decide) (by decide)).1 (by decide)

/-- What register_pre guarantees: the broker row is present and equals
broker_row_after_pre; the broker name is admitted to its cluster set; the
row's zoneName is the incoming one; its enableActingMaster flag is the
incoming value on a pre-existing row and the fresh default otherwise; and
the swap cleanup has removed every other entry holding the incoming
address. -/
theorem register_pre_props (s : RIMState) (a : RegisterArgs) :
    lookupAL (register_pre s a).1.broker_addr_table a.broker_name
      = some (broker_row_after_pre s a)
    ∧ a.broker_name ∈ (lookupAL (register_pre s a).1.cluster_addr_table a.cluster_name).getD []
    ∧ (broker_row_after_pre s a).zone_name = a.zone_name
    ∧ (broker_row_after_pre s a).enable_acting_master
        = (if containsAL s.broker_addr_table a.broker_name = true
            then a.enable_acting_master.getD false else false)
    ∧ (∀ k v, (k, v) ∈ (broker_row_after_pre s a).broker_addrs →
        v = a.broker_addr → k = a.broker_id) := by
  have hlook : lookupAL (register_pre s a).1.broker_addr_table a.broker_name
      = some (((lookupAL (upsert_broker_row s.broker_addr_table a.cluster_name a.broker_name
          a.zone_name (a.enable_acting_master.getD false)).1 a.broker_name).getD
          (BrokerData.new a.cluster_name a.broker_name [] a.zone_name)).remove_broker_by_addr
          a.broker_id a.broker_addr) := by
    unfold register_pre
    dsimp only
    exact lookupAL_insertAL_self _ _ _
  have hrow : broker_row_after_pre s a
      = (((lookupAL (upsert_broker_row s.broker_addr_table a.cluster_name a.broker_name
          a.zone_name (a.enable_acting_master.getD false)).1 a.broker_name).getD
          (BrokerData.new a.cluster_name a.broker_name [] a.zone_name)).remove_broker_by_addr
          a.broker_id a.broker_addr) := by
    unfold broker_row_after_pre
    rw [hlook]
    rfl
  have hclu : a.broker_name
      ∈ (lookupAL (register_pre s a).1.cluster_addr_table a.cluster_name).getD [] := by
    unfold register_pre
    dsimp only
    unfold cluster_admission
    dsimp only
    rw [lookupAL_insertAL_self]
    exact mem_insertSet_self _ _
  have hup : ((lookupAL (upsert_broker_row s.broker_addr_table a.cluster_name a.broker_name
      a.zone_name (a.enable_acting_master.getD false)).1 a.broker_name).getD
      (BrokerData.new a.cluster_name a.broker_name [] a.zone_name)).zone_name = a.zone_name
      ∧ ((lookupAL (upsert_broker_row s.broker_addr_table a.cluster_name a.broker_name
        a.zone_name (a.enable_acting_master.getD false)).1 a.broker_name).getD
        (BrokerData.new a.cluster_name a.broker_name [] a.zone_name)).enable_acting_master
        = (if containsAL s.broker_addr_table a.broker_name = true
            then a.enable_acting_master.getD false else false) := by
    unfold upsert_broker_row
    cases hl : lookupAL s.broker_addr_table a.broker_name with
    | some bd0 =>
      have hc : containsAL s.broker_addr_table a.broker_name = true := by
        simp [containsAL, hl]
      dsimp only
      rw [lookupAL_insertAL_self]
      simp [hc]
    | none =>
      have hc : containsAL s.broker_addr_table a.broker_name = false := by
        simp [containsAL, hl]
      dsimp only
      rw [lookupAL_insertAL_self]
      simp [hc, BrokerData.new]
  refine ⟨hlook.trans (by rw [hrow]), hclu, ?_, ?_, ?_⟩
  · rw [hrow]
    unfold BrokerData.remove_broker_by_addr
    dsimp only
    exact hup.1
  · rw [hrow]
    unfold BrokerData.remove_broker_by_addr
    dsimp only
    exact hup.2
  · rw [hrow]
    unfold BrokerData.remove_broker_by_addr
    dsimp only
    intro k v hmem hv
    have hflt := (List.mem_filter.mp hmem).2
    simp at hflt
    rcases hflt with hflt | hflt
    · exact absurd hv hflt
    · exact hflt

/-- A null (inner none) outcome of register_broker leaves exactly the
register_pre state. -/
theorem register_broker_none_state (s : RIMState) (a : RegisterArgs) (now : Int)
    (s2 : RIMState) (h : register_broker s a now = some (s2, none)) :
    s2 = (register_pre s a).1 := by
  rw [register_broker_eq] at h
  cases hlk : lookupAL (broker_row_after_pre s a).broker_addrs a.broker_id with
  | none =>
    rw [hlk] at h
    dsimp only at h
    exact (register_core_none_shape _ a now _ _ _ _ h).1
  | some old_broker_addr =>
    rw [hlk] at h
    dsimp only at h
    by_cases heq : old_broker_addr = a.broker_addr
    · rw [if_pos heq] at h
      exact (register_core_none_shape _ a now _ _ _ _ h).1
    · rw [if_neg heq] at h
      cases hlive : lookupAL (register_pre s a).1.broker_live_table
          (a.cluster_name, old_broker_addr) with
      | none =>
        rw [hlive] at h
        dsimp only at h
        exact (register_core_none_shape _ a now _ _ _ _ h).1
      | some val =>
        rw [hlive] at h
        dsimp only at h
        cases hdv : a.wrapper.data_version with
        | none =>
          rw [hdv] at h
          exact Option.noConfusion h
        | some new_dv =>
          rw [hdv] at h
          dsimp only at h
          by_cases hgt : val.data_version.state_version > new_dv.state_version
          · rw [if_pos hgt] at h
            simp at h
          · rw [if_neg hgt] at h
            exact (register_core_none_shape _ a now _ _ _ _ h).1

/-- Under the stale-registration condition register_broker takes the
early exit: it returns the register_pre state with the incoming live
entry evicted, and a present-but-empty result. -/
theorem register_broker_stale (s : RIMState) (a : RegisterArgs) (now : Int)
    (hst : stale_registration s a) :
    register_broker s a now
      = some (stale_exit_state s a, some RegisterBrokerResult.empty) := by
  obtain ⟨old_broker_addr, val, new_dv, h_old, h_ne, h_live, h_dv, h_gt⟩ := hst
  rw [register_broker_eq, h_old]
  dsimp only
  rw [if_neg h_ne, h_live]
  dsimp only
  rw [h_dv]
  dsimp only
  rw [if_pos h_gt]

/-- C10: a rejected registration (null from the single-topic guard, or
the stale present-but-empty exit) keeps every mutation already made: the
broker name stays admitted to its cluster row, the broker row keeps the
overwritten enableActingMaster and zoneName (or stays as the freshly
inserted empty row), and the swap-cleanup removals stay removed; no
rollback happens. -/
theorem C10_reject_keeps_mutations (s : RIMState) (a : RegisterArgs) (now : Int)
    (s2 : RIMState) (r : Option RegisterBrokerResult)
    (h : register_broker s a now = some (s2, r))
    (hrej : r = none ∨ stale_registration s a) :
    (r = none → s2 = (register_pre s a).1)
    ∧ (stale_registration s a →
        s2 = stale_exit_state s a ∧ r = some RegisterBrokerResult.empty)
    ∧ a.broker_name ∈ (lookupAL s2.cluster_addr_table a.cluster_name).getD []
    ∧ (∃ bd, lookupAL s2.broker_addr_table a.broker_name = some bd
        ∧ bd.zone_name = a.zone_name
        ∧ bd.enable_acting_master
            = (if containsAL s.broker_addr_table a.broker_name = true
                then a.enable_acting_master.getD false else false)
        ∧ (∀ k v, (k, v) ∈ bd.broker_addrs → v = a.broker_addr → k = a.broker_id)) := by
  have hprops := register_pre_props s a
  have hfix : s2.cluster_addr_table = (register_pre s a).1.cluster_addr_table
      ∧ s2.broker_addr_table = (register_pre s a).1.broker_addr_table := by
    rcases hrej with hr | hst
    · subst hr
      rw [register_broker_none_state s a now s2 h]
      exact ⟨rfl, rfl⟩
    · rw [register_broker_stale s a now hst] at h
      simp only [Option.some.injEq, Prod.mk.injEq] at h
      rw [← h.1]
      exact ⟨rfl, rfl⟩
  refine ⟨?_, ?_, ?_, ?_⟩
  · intro hr
    subst hr
    exact register_broker_none_state s a now s2 h
  · intro hst
    rw [register_broker_stale s a now hst] at h
    simp only [Option.some.injEq, Prod.mk.injEq] at h
    exact ⟨h.1.symm, h.2.symm⟩
  · rw [hfix.1]
    exact hprops.2.1
  · rw [hfix.2]
    exact ⟨broker_row_after_pre s a, hprops.1, hprops.2.2.1, hprops.2.2.2.1,
      hprops.2.2.2.2⟩

/-- C10 witness: a concrete single-topic-guard rejection (fresh broker,
one topic) keeps the cluster admission and the fresh broker row. -/
theorem C10_reject_keeps_mutations_witness :
    "b" ∈ (lookupAL
      ((register_pre (empty_rim ⟨false, false, false⟩)
        ⟨"c", "A", "b", 0, "ha", none, none, none,
          ⟨some ⟨1, 0, 0⟩, some [("T", ⟨"T", 1, 1, 6, 0⟩)], []⟩, []⟩).1.cluster_addr_table)
      "c").getD [] :=
  ((C10_reject_keeps_mutations (empty_rim ⟨false, false, false⟩)
      ⟨"c", "A", "b", 0, "ha", none, none, none,
        ⟨some ⟨1, 0, 0⟩, some [("T", ⟨"T", 1, 1, 6, 0⟩)], []⟩, []⟩ 3
      (register_pre (empty_rim ⟨false, false, false⟩)
        ⟨"c", "A", "b", 0, "ha", none, none, none,
          ⟨some ⟨1, 0, 0⟩, some [("T", ⟨"T", 1, 1, 6, 0⟩)], []⟩, []⟩).1 none
      (by decide) (Or.inl rfl)).2.2.1)

/-! ### The acting-master write mask (C4) and scenario S3 (C5) -/

/-- C4: the failing input evaluated.  A registration with
enableActingMaster = true, brokerId = 1 (the minimum after the insert)
and two fresh topic configs stores no QueueData at all: because
is_old_version_broker is assigned the value of enableActingMaster, the
broker is not classified prime slave and the whole topic-config
application (including the WRITE mask) is skipped. -/
theorem C4_write_mask_never_applied :
    (register_broker (empty_rim ⟨false, false, false⟩)
        ⟨"c", "a", "b", 1, "ha", none, none, some true,
          ⟨some ⟨1, 0, 0⟩, some [("T", ⟨"T", 4, 4, 6, 0⟩), ("U", ⟨"U", 4, 4, 6, 0⟩)], []⟩,
          []⟩ 5).map
      (fun p => (p.1.topic_queue_table, p.2.isSome)) = some ([], true) := by
  decide

/-- C5 counterexample: in scenario S3 (empty RIM, supportActingMaster,
one registration with brokerId 1, enableActingMaster true, a single
topic T with READ-only perm) the route pickup for T returns none, not a
promoted BrokerData: the single-topic guard rejects the registration
before any topic data is stored. -/
theorem C5_counterexample :
    (register_broker (empty_rim ⟨false, true, false⟩)
        ⟨"c", "10.0.0.2:10911", "b", 1, "ha", none, none, some true,
          ⟨some ⟨1, 0, 0⟩, some [("T", ⟨"T", 4, 4, 4, 0⟩)], []⟩, []⟩ 5).map
      (fun p => pickup_topic_route_data p.1 "T") = some none := by
  decide

/-- C5, amended: in scenario S3 the registration itself is rejected by
the single-topic guard (null result, only the register_pre mutations
kept) and pickup_topic_route_data "T" returns none. -/
theorem C5_single_topic_slave_scenario :
    register_broker (empty_rim ⟨false, true, false⟩)
        ⟨"c", "10.0.0.2:10911", "b", 1, "ha", none, none, some true,
          ⟨some ⟨1, 0, 0⟩, some [("T", ⟨"T", 4, 4, 4, 0⟩)], []⟩, []⟩ 5
      = some ((register_pre (empty_rim ⟨false, true, false⟩)
          ⟨"c", "10.0.0.2:10911", "b", 1, "ha", none, none, some true,
            ⟨some ⟨1, 0, 0⟩, some [("T", ⟨"T", 4, 4, 4, 0⟩)], []⟩, []⟩).1, none)
    ∧ pickup_topic_route_data
        ((register_pre (empty_rim ⟨false, true, false⟩)
          ⟨"c", "10.0.0.2:10911", "b", 1, "ha", none, none, some true,
            ⟨some ⟨1, 0, 0⟩, some [("T", ⟨"T", 4, 4, 4, 0⟩)], []⟩, []⟩).1) "T" = none := by
  constructor
  · decide
  · decide

/-! ### Totality of register_broker (C6) -/

theorem merge_topic_queue_mapping_total
    (tqm : List (String × List (String × TopicQueueMappingInfo)))
    (entries : List (String × TopicQueueMappingInfo))
    (h : ∀ p ∈ entries, p.2.bname.isSome = true) :
    ∃ t, merge_topic_queue_mapping tqm entries = some t := by
  induction entries generalizing tqm with
  | nil => exact ⟨tqm, rfl⟩
  | cons p rest ih =>
    cases hb : p.2.bname with
    | none =>
      have := h p (by simp)
      rw [hb] at this
      simp at this
    | some b =>
      obtain ⟨t, ht⟩ := ih (insertAL tqm p.1 (insertAL ((lookupAL tqm p.1).getD []) b p.2))
        (fun q hq => h q (by simp [hq]))
      refine ⟨t, ?_⟩
      unfold merge_topic_queue_mapping at ht ⊢
      rw [List.foldlM_cons, hb]
      exact ht

theorem apply_topic_block_total (s2 : RIMState) (a : RegisterArgs) (bd : BrokerData)
    (rf ip im : Bool)
    (h1 : a.wrapper.data_version.isSome = true)
    (h2 : ∀ p ∈ a.wrapper.topic_queue_mapping_info_map, p.2.bname.isSome = true) :
    ∃ s4, apply_topic_block s2 a bd rf ip im = some s4 := by
  unfold apply_topic_block
  by_cases hrole : (im || ip) = true
  · rw [if_pos hrole]
    cases htc : a.wrapper.topic_config_table with
    | none => exact ⟨s2, rfl⟩
    | some tc_table =>
      cases hdv : a.wrapper.data_version with
      | none => rw [hdv] at h1; simp at h1
      | some data_version =>
        dsimp only
        split
        all_goals split
        all_goals try exact ⟨_, rfl⟩
        all_goals
          obtain ⟨t, ht⟩ := merge_topic_queue_mapping_total _ a.wrapper.topic_queue_mapping_info_map h2
          rw [ht]
          exact ⟨_, rfl⟩
  · rw [if_neg hrole]
    exact ⟨s2, rfl⟩

theorem register_core_total (s1 : RIMState) (a : RegisterArgs) (now : Int)
    (rf mc io : Bool)
    (h1 : a.wrapper.data_version.isSome = true)
    (h2 : ∀ p ∈ a.wrapper.topic_queue_mapping_info_map, p.2.bname.isSome = true)
    (h3 : s1.namesrv_config.notify_min_broker_id_changed = false) :
    ∃ p, register_core s1 a now rf mc io = some p := by
  unfold register_core
  dsimp only
  split
  · exact ⟨_, rfl⟩
  · obtain ⟨s4, hs4⟩ := apply_topic_block_total _ a _ _ _ _ h1 h2
    rw [hs4]
    dsimp only
    rw [h3, Bool.and_false]
    simp only [Bool.false_eq_true, if_false]
    exact ⟨_, rfl⟩

/-- C6, amended: register_broker terminates normally (returning a some
or null result, never panicking) whenever the wrapper carries a
dataVersion, every mapping entry carries a bname, and the
notifyMinBrokerIdChanged switch (whose handler is an unimplemented
todo!()) is off.  The unamended claim fails: see C6_counterexample. -/
theorem C6_register_broker_total (s : RIMState) (a : RegisterArgs) (now : Int)
    (h1 : a.wrapper.data_version.isSome = true)
    (h2 : ∀ p ∈ a.wrapper.topic_queue_mapping_info_map, p.2.bname.isSome = true)
    (h3 : s.namesrv_config.notify_min_broker_id_changed = false) :
    ∃ p, register_broker s a now = some p := by
  have h3p : (register_pre s a).1.namesrv_config.notify_min_broker_id_changed = false := h3
  rw [register_broker_eq]
  cases hlk : lookupAL (broker_row_after_pre s a).broker_addrs a.broker_id with
  | none =>
    exact register_core_total _ a now _ _ _ h1 h2 h3p
  | some old_broker_addr =>
    dsimp only
    by_cases heq : old_broker_addr = a.broker_addr
    · rw [if_pos heq]
      exact register_core_total _ a now _ _ _ h1 h2 h3p
    · rw [if_neg heq]
      cases hlive : lookupAL (register_pre s a).1.broker_live_table
          (a.cluster_name, old_broker_addr) with
      | none => exact register_core_total _ a now _ _ _ h1 h2 h3p
      | some val =>
        dsimp only
        cases hdv : a.wrapper.data_version with
        | none => rw [hdv] at h1; simp at h1
        | some new_dv =>
          dsimp only
          by_cases hgt : val.data_version.state_version > new_dv.state_version
          · rw [if_pos hgt]
            exact ⟨_, rfl⟩
          · rw [if_neg hgt]
            exact register_core_total _ a now _ _ _ h1 h2 h3p

/-- C6 counterexample: a registration that lowers the minimum broker id
while notifyMinBrokerIdChanged is enabled reaches the todo!() stub and
panics (the embedded call returns the outer none). -/
theorem C6_counterexample :
    register_broker
      ⟨[], [("b", ⟨"c", "b", [(5, "X")], none, false⟩)], [], [], [], [],
        ⟨false, false, true⟩⟩
      ⟨"c", "a", "b", 1, "ha", none, none, none, ⟨some ⟨1, 0, 0⟩, none, []⟩, []⟩ 5
      = none := by
  decide

/-- C6 witness: a concrete total call under the amended hypotheses. -/
theorem C6_register_broker_total_witness :
    ∃ p, register_broker (empty_rim ⟨false, false, false⟩)
      ⟨"c", "a", "b", 0, "ha", none, none, none,
        ⟨some ⟨1, 0, 0⟩, some [("T", ⟨"T", 4, 4, 6, 0⟩)], [("T", ⟨some "b", 0⟩)]⟩,
        ["f1"]⟩ 5 = some p :=
  C6_register_broker_total _ _ 5 (by decide) (by decide) (by decide)

/-! ### Reachability invariant (C8) -/

theorem create_and_update_tq_only (s : RIMState) (broker_name : String) (tc : TopicConfig) :
    ∃ tq2, create_and_update_queue_data s broker_name tc = { s with topic_queue_table := tq2 } := by
  unfold create_and_update_queue_data
  dsimp only
  split
  · split
    · exact ⟨_, rfl⟩
    · split
      · exact ⟨s.topic_queue_table, rfl⟩
      · exact ⟨_, rfl⟩
  · exact ⟨_, rfl⟩

theorem foldl_tq_only {A : Type} (f : RIMState → A → RIMState)
    (hf : ∀ st x, ∃ tq2, f st x = { st with topic_queue_table := tq2 })
    (L : List A) (s : RIMState) :
    ∃ tq2, L.foldl f s = { s with topic_queue_table := tq2 } := by
  induction L generalizing s with
  | nil => exact ⟨s.topic_queue_table, rfl⟩
  | cons p rest ih =>
    rw [List.foldl_cons]
    obtain ⟨tqa, htqa⟩ := hf s p
    rw [htqa]
    exact ih { s with topic_queue_table := tqa }

theorem topic_config_apply_step_tq_only (a : RegisterArgs) (data_version : DataVersion)
    (rf ip : Bool) (bd : BrokerData) (st : RIMState) (p : String × TopicConfig) :
    ∃ tq2, topic_config_apply_step a data_version rf ip bd st p
      = { st with topic_queue_table := tq2 } :=
  create_and_update_tq_only st a.broker_name _

/-- apply_topic_block only changes the topic-queue and mapping tables. -/
theorem apply_topic_block_frame (s2 : RIMState) (a : RegisterArgs) (bd : BrokerData)
    (rf ip im : Bool) (s4 : RIMState)
    (h : apply_topic_block s2 a bd rf ip im = some s4) :
    ∃ tq2 tqm2, s4 = { s2 with
      topic_queue_table := tq2
      topic_queue_mapping_info_table := tqm2 } := by
  unfold apply_topic_block at h
  by_cases hrole : (im || ip) = true
  · rw [if_pos hrole] at h
    cases htc : a.wrapper.topic_config_table with
    | none =>
      rw [htc] at h
      simp only [Option.some.injEq] at h
      exact ⟨s2.topic_queue_table, s2.topic_queue_mapping_info_table, h.symm⟩
    | some tc_table =>
      rw [htc] at h
      cases hdv : a.wrapper.data_version with
      | none => rw [hdv] at h; exact Option.noConfusion h
      | some data_version =>
        rw [hdv] at h
        dsimp only at h
        obtain ⟨tqd, htqd⟩ : ∃ tqd,
            (if (s2.namesrv_config.delete_topic_with_broker_registration
                && a.wrapper.topic_queue_mapping_info_map.isEmpty) = true then
              delete_topics_with_registration s2 a.broker_name (List.map Prod.fst tc_table)
            else s2) = { s2 with topic_queue_table := tqd } := by
          split
          · exact ⟨_, rfl⟩
          · exact ⟨s2.topic_queue_table, rfl⟩
        rw [htqd] at h
        obtain ⟨tq2, htq2⟩ := foldl_tq_only
          (topic_config_apply_step a data_version rf ip bd)
          (topic_config_apply_step_tq_only a data_version rf ip bd)
          tc_table { s2 with topic_queue_table := tqd }
        rw [htq2] at h
        split at h
        · split at h
          · simp only [Option.some.injEq] at h
            exact ⟨tq2, _, h.symm⟩
          · exact Option.noConfusion h
        · simp only [Option.some.injEq] at h
          exact ⟨tq2, _, h.symm⟩
  · rw [if_neg hrole] at h
    simp only [Option.some.injEq] at h
    exact ⟨s2.topic_queue_table, s2.topic_queue_mapping_info_table, h.symm⟩

/-- The register_pre broker table is one insertion into the original. -/
theorem register_pre_ba_insert (s : RIMState) (a : RegisterArgs) :
    (register_pre s a).1.broker_addr_table
      = insertAL s.broker_addr_table a.broker_name (broker_row_after_pre s a) := by
  obtain ⟨x, hx⟩ : ∃ x, (upsert_broker_row s.broker_addr_table a.cluster_name a.broker_name
      a.zone_name (a.enable_acting_master.getD false)).1
      = insertAL s.broker_addr_table a.broker_name x := by
    unfold upsert_broker_row
    cases lookupAL s.broker_addr_table a.broker_name
    · exact ⟨_, rfl⟩
    · exact ⟨_, rfl⟩
  unfold broker_row_after_pre register_pre
  dsimp only
  simp only [hx, lookupAL_insertAL_self, Option.getD_some, insertAL_insertAL_self]

/-- Any non-panicking register_broker call: the cluster table is exactly
the admission of the original, and the broker table is one insertion at
brokerName into the original. -/
theorem register_broker_shape (s : RIMState) (a : RegisterArgs) (now : Int)
    (s2 : RIMState) (r : Option RegisterBrokerResult)
    (h : register_broker s a now = some (s2, r)) :
    s2.cluster_addr_table
      = cluster_admission s.cluster_addr_table a.cluster_name a.broker_name
    ∧ (∃ bd2, s2.broker_addr_table = insertAL s.broker_addr_table a.broker_name bd2) := by
  have hca1 : (register_pre s a).1.cluster_addr_table
      = cluster_admission s.cluster_addr_table a.cluster_name a.broker_name := rfl
  have hcore : ∀ rf mc io,
      register_core (register_pre s a).1 a now rf mc io = some (s2, r) →
      s2.cluster_addr_table
        = cluster_admission s.cluster_addr_table a.cluster_name a.broker_name
      ∧ (∃ bd2, s2.broker_addr_table = insertAL s.broker_addr_table a.broker_name bd2) := by
    intro rf mc io hc
    unfold register_core at hc
    dsimp only at hc
    split at hc
    · simp only [Option.some.injEq, Prod.mk.injEq] at hc
      rw [← hc.1]
      exact ⟨hca1, broker_row_after_pre s a, register_pre_ba_insert s a⟩
    · split at hc
      case h_1 s4 hblock =>
        split at hc
        · exact Option.noConfusion hc
        · simp only [Option.some.injEq, Prod.mk.injEq] at hc
          obtain ⟨tq2, tqm2, hs4⟩ := apply_topic_block_frame _ a _ _ _ _ _ hblock
          rw [← hc.1]
          unfold finish_register
          dsimp only
          rw [hs4]
          dsimp only
          constructor
          · exact hca1
          · rw [register_pre_ba_insert s a, insertAL_insertAL_self]
            exact ⟨_, rfl⟩
      case h_2 => exact Option.noConfusion hc
  rw [register_broker_eq] at h
  cases hlk : lookupAL (broker_row_after_pre s a).broker_addrs a.broker_id with
  | none =>
    rw [hlk] at h
    exact hcore _ _ _ h
  | some old_broker_addr =>
    rw [hlk] at h
    dsimp only at h
    by_cases heq : old_broker_addr = a.broker_addr
    · rw [if_pos heq] at h
      exact hcore _ _ _ h
    · rw [if_neg heq] at h
      cases hlive : lookupAL (register_pre s a).1.broker_live_table
          (a.cluster_name, old_broker_addr) with
      | none =>
        rw [hlive] at h
        dsimp only at h
        exact hcore _ _ _ h
      | some val =>
        rw [hlive] at h
        dsimp only at h
        cases hdv : a.wrapper.data_version with
        | none => rw [hdv] at h; exact Option.noConfusion h
        | some new_dv =>
          rw [hdv] at h
          dsimp only at h
          by_cases hgt : val.data_version.state_version > new_dv.state_version
          · rw [if_pos hgt] at h
            simp only [Option.some.injEq, Prod.mk.injEq] at h
            rw [← h.1]
            exact ⟨hca1, broker_row_after_pre s a, register_pre_ba_insert s a⟩
          · rw [if_neg hgt] at h
            exact hcore _ _ _ h

/-- Membership in a cluster row after admission: an old member of the
same row, or the admitted broker name. -/
theorem cluster_admission_mem (ca : List (String × List String))
    (cluster_name broker_name : String) (c : String) (st : List String) (n : String)
    (hlk : lookupAL (cluster_admission ca cluster_name broker_name) c = some st)
    (hn : n ∈ st) :
    (∃ st0, lookupAL ca c = some st0 ∧ n ∈ st0) ∨ n = broker_name := by
  unfold cluster_admission at hlk
  by_cases hc : c = cluster_name
  · subst hc
    rw [lookupAL_insertAL_self] at hlk
    have hst : st = insertSet ((lookupAL (if containsAL ca c = true then ca
        else insertAL ca c []) c).getD []) broker_name := (Option.some.inj hlk).symm
    subst hst
    rcases mem_insertSet _ _ _ hn with hn2 | hn2
    · by_cases hcc : containsAL ca c = true
      · rw [if_pos hcc] at hn2
        obtain ⟨st0, hst0⟩ := lookupAL_isSome_ex ca c hcc
        rw [hst0] at hn2
        exact Or.inl ⟨st0, hst0, hn2⟩
      · rw [if_neg hcc] at hn2
        rw [lookupAL_insertAL_self] at hn2
        simp at hn2
    · exact Or.inr hn2
  · rw [lookupAL_insertAL_ne _ _ _ _ (fun hh => hc hh)] at hlk
    by_cases hcc : containsAL ca cluster_name = true
    · rw [if_pos hcc] at hlk
      exact Or.inl ⟨st, hlk, hn⟩
    · rw [if_neg hcc] at hlk
      rw [lookupAL_insertAL_ne _ _ _ _ (fun hh => hc hh)] at hlk
      exact Or.inl ⟨st, hlk, hn⟩

/-- One register_broker step preserves the row-existence invariant. -/
theorem register_broker_preserves_row_exists (s : RIMState) (a : RegisterArgs) (now : Int)
    (s2 : RIMState) (r : Option RegisterBrokerResult)
    (h : register_broker s a now = some (s2, r))
    (hinv : cluster_broker_row_exists s) : cluster_broker_row_exists s2 := by
  obtain ⟨hca, bd2, hba⟩ := register_broker_shape s a now s2 r h
  intro c st hlk n hn
  rw [hca] at hlk
  rcases cluster_admission_mem _ _ _ _ _ _ hlk hn with ⟨st0, hst0, hn0⟩ | hn0
  · obtain ⟨bd0, hbd0⟩ := hinv c st0 hst0 n hn0
    by_cases hnb : n = a.broker_name
    · subst hnb
      rw [hba]
      exact ⟨bd2, lookupAL_insertAL_self _ _ _⟩
    · rw [hba]
      rw [lookupAL_insertAL_ne _ _ _ _ (fun hh => hnb hh)]
      exact ⟨bd0, hbd0⟩
  · subst hn0
    rw [hba]
    exact ⟨bd2, lookupAL_insertAL_self _ _ _⟩

/-- C8, amended: in every state reachable from an empty RIM by
register_broker calls, every brokerName in a ClusterAddrTable row has a
BrokerAddrTable row; the stored clusterName, however, can differ from
the indexing cluster (see the counterexample). -/
theorem C8_cluster_row_exists (s : RIMState) (h : ReachableRIM s) :
    cluster_broker_row_exists s := by
  induction h with
  | init cfg =>
    intro c st hlk n hn
    simp [empty_rim, lookupAL] at hlk
  | step s1 a now s2 r hs hreg ih =>
    exact register_broker_preserves_row_exists s1 a now s2 r hreg ih

/-- C8 counterexample: registering broker b under cluster c1 and then
under cluster c2 reaches a state where b is a member of
ClusterAddrTable[c2] but its BrokerAddrTable row still stores cluster
c1, violating the matching-cluster invariant as claimed. -/
theorem C8_counterexample :
    ReachableRIM
      ⟨[], [("b", ⟨"c1", "b", [(0, "A")], none, false⟩)],
        [("c1", ["b"]), ("c2", ["b"])],
        [(("c1", "A"), ⟨5, 120000, ⟨0, 0, 0⟩, "ha"⟩),
          (("c2", "A"), ⟨9, 120000, ⟨0, 0, 0⟩, "ha"⟩)],
        [], [], ⟨false, false, false⟩⟩
    ∧ ¬ cluster_broker_matching
      ⟨[], [("b", ⟨"c1", "b", [(0, "A")], none, false⟩)],
        [("c1", ["b"]), ("c2", ["b"])],
        [(("c1", "A"), ⟨5, 120000, ⟨0, 0, 0⟩, "ha"⟩),
          (("c2", "A"), ⟨9, 120000, ⟨0, 0, 0⟩, "ha"⟩)],
        [], [], ⟨false, false, false⟩⟩ := by
  constructor
  · refine ReachableRIM.step
      ⟨[], [("b", ⟨"c1", "b", [(0, "A")], none, false⟩)], [("c1", ["b"])],
        [(("c1", "A"), ⟨5, 120000, ⟨0, 0, 0⟩, "ha"⟩)], [], [], ⟨false, false, false⟩⟩
      ⟨"c2", "A", "b", 0, "ha", none, none, none, ⟨none, none, []⟩, []⟩ 9 _
      (some ⟨"", ""⟩) ?_ ?_
    · refine ReachableRIM.step (empty_rim ⟨false, false, false⟩)
        ⟨"c1", "A", "b", 0, "ha", none, none, none, ⟨none, none, []⟩, []⟩ 5 _
        (some ⟨"", ""⟩) (ReachableRIM.init ⟨false, false, false⟩) ?_
      decide
    · decide
  · intro hmatch
    obtain ⟨bd, hbd, hclu⟩ := hmatch "c2" ["b"] (by decide) "b" (by simp)
    have hbd2 : bd = ⟨"c1", "b", [(0, "A")], none, false⟩ := by
      have : lookupAL [("b", (⟨"c1", "b", [(0, "A")], none, false⟩ : BrokerData))] "b"
          = some ⟨"c1", "b", [(0, "A")], none, false⟩ := by decide
      rw [this] at hbd
      exact (Option.some.inj hbd).symm
    rw [hbd2] at hclu
    simp at hclu

/-- C8 witness: the invariant instantiated at a concrete reachable
state. -/
theorem C8_cluster_row_exists_witness :
    cluster_broker_row_exists (empty_rim ⟨false, false, false⟩) :=
  C8_cluster_row_exists _ (ReachableRIM.init ⟨false, false, false⟩)

/-! ### Assignment algebra for the per-topic upsert loop (C7) -/

theorem mem_insertAL {K V : Type} [DecidableEq K] (l : List (K × V)) (k0 k : K) (v0 v : V)
    (h : (k, v) ∈ insertAL l k0 v0) : (k, v) = (k0, v0) ∨ (k, v) ∈ l := by
  induction l with
  | nil => simpa [insertAL] using h
  | cons p t ih =>
    obtain ⟨k1, v1⟩ := p
    by_cases h1 : k1 = k0
    · subst h1
      simp [insertAL] at h
      rcases h with h | h
      · exact Or.inl (by simp [h])
      · exact Or.inr (by simp [h])
    · simp [insertAL, h1] at h
      rcases h with h | h
      · exact Or.inr (by simp [h])
      · rcases ih h with h2 | h2
        · exact Or.inl h2
        · exact Or.inr (by simp [h2])

theorem map_insertAL {K V : Type} [DecidableEq K] (g : V → V) (l : List (K × V))
    (k : K) (v : V) :
    (insertAL l k v).map (fun p => (p.1, g p.2))
      = insertAL (l.map (fun p => (p.1, g p.2))) k (g v) := by
  induction l with
  | nil => simp [insertAL]
  | cons p t ih =>
    obtain ⟨k1, v1⟩ := p
    by_cases h1 : k1 = k
    · subst h1
      simp [insertAL]
    · simp [insertAL, h1, ih]

theorem containsAL_mono_insertAL {K V : Type} [DecidableEq K] (l : List (K × V))
    (k k2 : K) (v : V) (h : containsAL l k2 = true) :
    containsAL (insertAL l k v) k2 = true := by
  by_cases h2 : k2 = k
  · subst h2
    exact containsAL_insertAL_self l k2 v
  · rw [containsAL_insertAL_ne l k k2 v h2]
    exact h

theorem insertAL_comm {K V : Type} [DecidableEq K] (l : List (K × V)) (k1 k2 : K)
    (v1 v2 : V) (hk : k1 ≠ k2) (hc : containsAL l k1 = true) :
    insertAL (insertAL l k1 v1) k2 v2 = insertAL (insertAL l k2 v2) k1 v1 := by
  induction l with
  | nil => simp [containsAL, lookupAL] at hc
  | cons p t ih =>
    obtain ⟨ka, va⟩ := p
    by_cases ha1 : ka = k1
    · subst ha1
      have hk2 : ¬ ka = k2 := hk
      simp [insertAL, hk2, fun hh : k2 = ka => hk hh.symm]
    · by_cases ha2 : ka = k2
      · subst ha2
        simp [containsAL, lookupAL, ha1] at hc
        simp [insertAL, ha1, fun hh : k1 = ka => ha1 hh.symm]
      · simp [containsAL, lookupAL, ha1] at hc
        simp [insertAL, ha1, ha2, ih (by simp [containsAL, hc])]

theorem insertAL_ne_nil {K V : Type} [DecidableEq K] (l : List (K × V)) (k : K) (v : V) :
    insertAL l k v ≠ [] := by
  cases l with
  | nil => simp [insertAL]
  | cons p t =>
    obtain ⟨k1, v1⟩ := p
    by_cases h : k1 = k <;> simp [insertAL, h]

theorem tq_assign_contains_self (broker_name : String) (tc : TopicConfig)
    (m : List (String × List (String × QueueData))) :
    containsAL (tq_assign broker_name tc m) tc.topic_name = true := by
  unfold tq_assign
  exact containsAL_insertAL_self _ _ _

theorem tq_assign_lookup_ne (broker_name : String) (tc : TopicConfig)
    (m : List (String × List (String × QueueData))) (t : String)
    (h : t ≠ tc.topic_name) :
    lookupAL (tq_assign broker_name tc m) t = lookupAL m t := by
  unfold tq_assign
  exact lookupAL_insertAL_ne _ _ _ _ h

theorem tq_assign_lookup_self (broker_name : String) (tc : TopicConfig)
    (m : List (String × List (String × QueueData))) :
    lookupAL (tq_assign broker_name tc m) tc.topic_name
      = some (insertAL ((lookupAL m tc.topic_name).getD []) broker_name
          (queue_data_of broker_name tc)) := by
  unfold tq_assign
  exact lookupAL_insertAL_self _ _ _

theorem tq_assign_collapse (broker_name : String) (tc1 tc2 : TopicConfig)
    (m : List (String × List (String × QueueData)))
    (h : tc1.topic_name = tc2.topic_name) :
    tq_assign broker_name tc2 (tq_assign broker_name tc1 m)
      = tq_assign broker_name tc2 m := by
  unfold tq_assign
  rw [← h, lookupAL_insertAL_self]
  simp only [Option.getD_some]
  rw [insertAL_insertAL_self, insertAL_insertAL_self, h]

theorem tq_assign_comm (broker_name : String) (tc1 tc2 : TopicConfig)
    (m : List (String × List (String × QueueData)))
    (hne : tc1.topic_name ≠ tc2.topic_name)
    (hc : containsAL m tc1.topic_name = true) :
    tq_assign broker_name tc2 (tq_assign broker_name tc1 m)
      = tq_assign broker_name tc1 (tq_assign broker_name tc2 m) := by
  unfold tq_assign
  rw [lookupAL_insertAL_ne _ _ _ _ (fun hh => hne hh.symm),
    lookupAL_insertAL_ne _ _ _ _ hne]
  exact insertAL_comm _ _ _ _ _ hne hc

theorem tq_assign_absorb_base (broker_name : String) (tc : TopicConfig)
    (m : List (String × List (String × QueueData))) (row : List (String × QueueData))
    (hrow : lookupAL m tc.topic_name = some row)
    (hqd : lookupAL row broker_name = some (queue_data_of broker_name tc)) :
    tq_assign broker_name tc m = m := by
  unfold tq_assign
  rw [hrow]
  simp only [Option.getD_some]
  rw [insertAL_of_lookup_eq _ _ _ hqd]
  exact insertAL_of_lookup_eq _ _ _ hrow

theorem tq_assign_fold_cons (broker_name : String) (p : String × TopicConfig)
    (R : List (String × TopicConfig)) (m : List (String × List (String × QueueData))) :
    tq_assign_fold broker_name (p :: R) m
      = tq_assign_fold broker_name R (tq_assign broker_name p.2 m) := rfl

theorem tq_assign_contains_mono (broker_name : String) (tc : TopicConfig)
    (m : List (String × List (String × QueueData))) (t : String)
    (h : containsAL m t = true) :
    containsAL (tq_assign broker_name tc m) t = true := by
  unfold tq_assign
  exact containsAL_mono_insertAL _ _ _ _ h

theorem tq_assign_fold_contains_mono (broker_name : String)
    (L : List (String × TopicConfig)) (m : List (String × List (String × QueueData)))
    (t : String) (h : containsAL m t = true) :
    containsAL (tq_assign_fold broker_name L m) t = true := by
  induction L generalizing m with
  | nil => exact h
  | cons p R ih =>
    rw [tq_assign_fold_cons]
    exact ih _ (tq_assign_contains_mono broker_name p.2 m t h)

theorem tq_assign_fold_lookup_not_assigned (broker_name : String)
    (L : List (String × TopicConfig)) (m : List (String × List (String × QueueData)))
    (t : String) (h : t ∉ L.map (fun p => p.2.topic_name)) :
    lookupAL (tq_assign_fold broker_name L m) t = lookupAL m t := by
  induction L generalizing m with
  | nil => rfl
  | cons p R ih =>
    rw [tq_assign_fold_cons]
    have h1 : t ≠ p.2.topic_name := by
      intro hh
      exact h (by simp [hh])
    have h2 : t ∉ R.map (fun p => p.2.topic_name) := by
      intro hh
      exact h (by simp [hh])
    rw [ih _ h2]
    exact tq_assign_lookup_ne broker_name p.2 m t h1

theorem tq_assign_fold_absorb (broker_name : String) (tc : TopicConfig)
    (L : List (String × TopicConfig)) (m : List (String × List (String × QueueData)))
    (hc : containsAL m tc.topic_name = true)
    (h : tc.topic_name ∈ L.map (fun p => p.2.topic_name)
        ∨ ∃ row, lookupAL m tc.topic_name = some row
            ∧ lookupAL row broker_name = some (queue_data_of broker_name tc)) :
    tq_assign_fold broker_name L (tq_assign broker_name tc m)
      = tq_assign_fold broker_name L m := by
  induction L generalizing m with
  | nil =>
    rcases h with h | ⟨row, hrow, hqd⟩
    · simp at h
    · exact tq_assign_absorb_base broker_name tc m row hrow hqd
  | cons p R ih =>
    rw [tq_assign_fold_cons, tq_assign_fold_cons]
    by_cases hpt : p.2.topic_name = tc.topic_name
    · rw [tq_assign_collapse broker_name tc p.2 m hpt.symm]
    · rw [tq_assign_comm broker_name tc p.2 m (fun hh => hpt hh.symm) hc]
      have hc2 : containsAL (tq_assign broker_name p.2 m) tc.topic_name = true :=
        tq_assign_contains_mono broker_name p.2 m tc.topic_name hc
      have h2 : tc.topic_name ∈ R.map (fun p => p.2.topic_name)
          ∨ ∃ row, lookupAL (tq_assign broker_name p.2 m) tc.topic_name = some row
              ∧ lookupAL row broker_name = some (queue_data_of broker_name tc) := by
        rcases h with h | ⟨row, hrow, hqd⟩
        · simp at h
          rcases h with h | h
          · exact absurd h (fun hh => hpt hh.symm)
          · exact Or.inl (by simpa using h)
        · refine Or.inr ⟨row, ?_, hqd⟩
          rw [tq_assign_lookup_ne broker_name p.2 m tc.topic_name
            (fun hh => hpt hh.symm)]
          exact hrow
      exact ih _ hc2 h2

theorem tq_assign_fold_idem (broker_name : String) (L : List (String × TopicConfig))
    (m : List (String × List (String × QueueData))) :
    tq_assign_fold broker_name L (tq_assign_fold broker_name L m)
      = tq_assign_fold broker_name L m := by
  induction L generalizing m with
  | nil => rfl
  | cons p R ih =>
    rw [tq_assign_fold_cons broker_name p R m, tq_assign_fold_cons broker_name p R]
    have hc : containsAL (tq_assign_fold broker_name R (tq_assign broker_name p.2 m))
        p.2.topic_name = true :=
      tq_assign_fold_contains_mono broker_name R _ _
        (tq_assign_contains_self broker_name p.2 m)
    have habs : tq_assign_fold broker_name R
        (tq_assign broker_name p.2 (tq_assign_fold broker_name R
          (tq_assign broker_name p.2 m)))
        = tq_assign_fold broker_name R (tq_assign_fold broker_name R
          (tq_assign broker_name p.2 m)) := by
      apply tq_assign_fold_absorb broker_name p.2 R _ hc
      by_cases hmem : p.2.topic_name ∈ R.map (fun p => p.2.topic_name)
      · exact Or.inl hmem
      · refine Or.inr ⟨insertAL ((lookupAL m p.2.topic_name).getD []) broker_name
          (queue_data_of broker_name p.2), ?_, lookupAL_insertAL_self _ _ _⟩
        rw [tq_assign_fold_lookup_not_assigned broker_name R _ _ hmem]
        exact tq_assign_lookup_self broker_name p.2 m
    rw [habs, ih]

/-- create_and_update_queue_data acts on the topic-queue table exactly as
tq_assign (a skipped equal write is the same list). -/
theorem create_eq_assign (s : RIMState) (broker_name : String) (tc : TopicConfig) :
    create_and_update_queue_data s broker_name tc
      = { s with topic_queue_table := tq_assign broker_name tc s.topic_queue_table } := by
  unfold create_and_update_queue_data tq_assign queue_data_of
  dsimp only
  cases hrow : lookupAL s.topic_queue_table tc.topic_name with
  | none =>
    simp only [Option.getD_none]
    rfl
  | some row =>
    simp only [Option.getD_some]
    cases hqd : lookupAL row broker_name with
    | none => rfl
    | some existed =>
      dsimp only
      by_cases he : existed = ⟨broker_name, tc.write_queue_nums, tc.read_queue_nums,
          tc.perm, tc.topic_sys_flag⟩
      · rw [if_pos he]
        rw [← he, insertAL_of_lookup_eq _ _ _ hqd, insertAL_of_lookup_eq _ _ _ hrow]
      · rw [if_neg he]

/-- When the prime-slave-and-acting-master conjunction is false the
per-topic step is a plain upsert of the unmasked config. -/
theorem step_eq_create (a : RegisterArgs) (data_version : DataVersion) (rf ip : Bool)
    (bd : BrokerData) (st : RIMState) (p : String × TopicConfig)
    (h : (ip && bd.enable_acting_master) = false) :
    topic_config_apply_step a data_version rf ip bd st p
      = create_and_update_queue_data st a.broker_name p.2 := by
  unfold topic_config_apply_step
  dsimp only
  cases hip : ip with
  | false => simp [hip]
  | true =>
    rw [hip] at h
    simp only [Bool.true_and] at h
    simp [h]

/-- The whole per-topic loop, as tq_assign_fold, when the mask is dead. -/
theorem fold_step_eq_assign_fold (a : RegisterArgs) (data_version : DataVersion)
    (rf ip : Bool) (bd : BrokerData) (tc_table : List (String × TopicConfig))
    (st : RIMState) (h : (ip && bd.enable_acting_master) = false) :
    tc_table.foldl (topic_config_apply_step a data_version rf ip bd) st
      = { st with topic_queue_table :=
          tq_assign_fold a.broker_name tc_table st.topic_queue_table } := by
  induction tc_table generalizing st with
  | nil => rfl
  | cons p R ih =>
    rw [List.foldl_cons, step_eq_create a data_version rf ip bd st p h,
      create_eq_assign, ih, tq_assign_fold_cons]

theorem mem_insertAL_ne {K V : Type} [DecidableEq K] (l : List (K × V)) (k0 k : K)
    (v0 v : V) (hm : (k, v) ∈ l) (hk : k ≠ k0) : (k, v) ∈ insertAL l k0 v0 := by
  induction l with
  | nil => simp at hm
  | cons p t ih =>
    obtain ⟨k1, v1⟩ := p
    by_cases h1 : k1 = k0
    · subst h1
      simp [insertAL]
      simp at hm
      rcases hm with hm | hm
      · exact absurd hm.1.symm (by exact fun hh => hk (by rw [hh]))
      · exact Or.inr hm
    · simp [insertAL, h1]
      simp at hm
      rcases hm with hm | hm
      · exact Or.inl (by simp [hm])
      · exact Or.inr (ih hm)

theorem mem_eraseAL_ne {K V : Type} [DecidableEq K] (l : List (K × V)) (k0 k : K)
    (v : V) (hm : (k, v) ∈ l) (hk : k ≠ k0) : (k, v) ∈ eraseAL l k0 := by
  induction l with
  | nil => simp at hm
  | cons p t ih =>
    obtain ⟨k1, v1⟩ := p
    simp at hm
    by_cases h1 : k1 = k0
    · subst h1
      simp [eraseAL]
      rcases hm with hm | hm
      · exact absurd hm.1.symm (fun hh => hk (by rw [hh]))
      · exact ih hm
    · simp [eraseAL, h1]
      rcases hm with hm | hm
      · exact Or.inl (by simp [hm])
      · exact Or.inr (ih hm)

/-! ### The deletion step is the identity on the second call (C7) -/

theorem delete_topics_eq_fold (s : RIMState) (broker_name : String)
    (topic_keys : List String) :
    delete_topics_with_registration s broker_name topic_keys
      = { s with topic_queue_table := ((to_delete_list s broker_name topic_keys).foldl (fun tq t => remove_topic_queue_one tq broker_name t) s.topic_queue_table) } := rfl

theorem remove_one_lookup_self (tq : List (String × List (String × QueueData)))
    (broker_name t : String) :
    lookupAL (remove_topic_queue_one tq broker_name t) t = none
    ∨ ∃ row, lookupAL (remove_topic_queue_one tq broker_name t) t = some row ∧ row ≠ [] := by
  unfold remove_topic_queue_one
  cases hrow : lookupAL tq t with
  | none => exact Or.inl hrow
  | some row =>
    dsimp only
    by_cases he : (eraseAL row broker_name).isEmpty = true
    · rw [if_pos he]
      exact Or.inl (lookupAL_eraseAL_self _ _)
    · rw [if_neg he]
      refine Or.inr ⟨eraseAL row broker_name, lookupAL_insertAL_self _ _ _, ?_⟩
      intro hnil
      rw [hnil] at he
      exact he rfl

theorem remove_one_lookup_ne (tq : List (String × List (String × QueueData)))
    (broker_name t t2 : String) (h : t2 ≠ t) :
    lookupAL (remove_topic_queue_one tq broker_name t) t2 = lookupAL tq t2 := by
  unfold remove_topic_queue_one
  cases hrow : lookupAL tq t with
  | none => rfl
  | some row =>
    dsimp only
    split
    · exact lookupAL_eraseAL_ne _ _ _ h
    · exact lookupAL_insertAL_ne _ _ _ _ h

theorem delete_fold_lookup_not_mem (broker_name : String) (l : List String)
    (tq : List (String × List (String × QueueData))) (t : String) (h : t ∉ l) :
    lookupAL (l.foldl (fun tq t => remove_topic_queue_one tq broker_name t) tq) t
      = lookupAL tq t := by
  induction l generalizing tq with
  | nil => rfl
  | cons u l2 ih =>
    rw [List.foldl_cons]
    have hu : t ≠ u := fun hh => h (by simp [hh])
    rw [ih _ (fun hh => h (by simp [hh]))]
    exact remove_one_lookup_ne tq broker_name u t hu

theorem delete_fold_no_empty (broker_name : String) (l : List String)
    (tq : List (String × List (String × QueueData))) (t : String)
    (hmem : t ∈ l) (hnd : l.Nodup) :
    ¬ lookupAL (l.foldl (fun tq t => remove_topic_queue_one tq broker_name t) tq) t
      = some [] := by
  induction l generalizing tq with
  | nil => simp at hmem
  | cons u l2 ih =>
    rw [List.foldl_cons]
    by_cases hu : t = u
    · subst hu
      have hnin : t ∉ l2 := (List.nodup_cons.mp hnd).1
      rw [delete_fold_lookup_not_mem broker_name l2 _ t hnin]
      rcases remove_one_lookup_self tq broker_name t with h | ⟨row, hrow, hne⟩
      · rw [h]
        exact fun hh => Option.noConfusion hh
      · rw [hrow]
        intro hh
        exact hne (Option.some.inj hh)
    · have hmem2 : t ∈ l2 := by
        rcases List.mem_cons.mp hmem with h | h
        · exact absurd h hu
        · exact h
      exact ih _ hmem2 (List.nodup_cons.mp hnd).2

theorem insertSet_nodup {K : Type} [DecidableEq K] (l : List K) (k : K)
    (h : l.Nodup) : (insertSet l k).Nodup := by
  by_cases hm : k ∈ l
  · rw [insertSet_of_mem l k hm]
    exact h
  · unfold insertSet
    rw [if_neg hm]
    simp [List.nodup_append, h, hm]

theorem new_topic_set_nodup_aux {K : Type} [DecidableEq K] (keys : List K)
    (acc : List K) (h : acc.Nodup) :
    (keys.foldl (fun acc k => insertSet acc k) acc).Nodup := by
  induction keys generalizing acc with
  | nil => exact h
  | cons k rest ih =>
    rw [List.foldl_cons]
    exact ih _ (insertSet_nodup acc k h)

theorem to_delete_list_nodup (s : RIMState) (broker_name : String)
    (topic_keys : List String) : (to_delete_list s broker_name topic_keys).Nodup :=
  List.Nodup.filter _ (new_topic_set_nodup_aux topic_keys [] List.nodup_nil)

/-- The deletion step leaves the state unchanged as soon as every topic
it visits has no stored QueueData for the broker and no empty row. -/
theorem delete_topics_id_of (s : RIMState) (broker_name : String)
    (topic_keys : List String)
    (hne : ∀ t, t ∈ to_delete_list s broker_name topic_keys →
      ∀ row, lookupAL s.topic_queue_table t = some row → row ≠ []) :
    delete_topics_with_registration s broker_name topic_keys = s := by
  rw [delete_topics_eq_fold]
  have hstep : ∀ (l : List String),
      (∀ t, t ∈ l → t ∈ to_delete_list s broker_name topic_keys) →
      l.foldl (fun tq t => remove_topic_queue_one tq broker_name t) s.topic_queue_table
        = s.topic_queue_table := by
    intro l
    induction l with
    | nil => intro _; rfl
    | cons t rest ih =>
      intro hl
      rw [List.foldl_cons]
      have htd := hl t (by simp)
      have hnc : ∀ row, lookupAL s.topic_queue_table t = some row →
          containsAL row broker_name = false := by
        apply not_mem_topic_set
        have hflt := (List.mem_filter.mp htd).2
        simp at hflt
        exact hflt
      rw [remove_topic_queue_one_id s.topic_queue_table broker_name t
        (hne t htd) hnc]
      exact ih (fun t2 ht2 => hl t2 (by simp [ht2]))
  rw [hstep _ (fun t ht => ht)]

theorem tq_assign_fold_assigned (broker_name : String)
    (L : List (String × TopicConfig)) (m : List (String × List (String × QueueData)))
    (t : String) (h : t ∈ L.map (fun p => p.2.topic_name)) :
    ∃ row, lookupAL (tq_assign_fold broker_name L m) t = some row
      ∧ containsAL row broker_name = true := by
  induction L generalizing m with
  | nil => simp at h
  | cons p R ih =>
    rw [tq_assign_fold_cons]
    by_cases hR : t ∈ R.map (fun p => p.2.topic_name)
    · exact ih _ hR
    · have ht : t = p.2.topic_name := by
        simp at h
        rcases h with h | h
        · exact h
        · exact absurd (by simpa using h) hR
      subst ht
      rw [tq_assign_fold_lookup_not_assigned broker_name R _ _ hR,
        tq_assign_lookup_self]
      refine ⟨_, rfl, ?_⟩
      simp [containsAL]

theorem mem_remove_one_ne (tq : List (String × List (String × QueueData)))
    (broker_name t2 : String) (t : String) (row : List (String × QueueData))
    (hm : (t, row) ∈ tq) (hk : t ≠ t2) :
    (t, row) ∈ remove_topic_queue_one tq broker_name t2 := by
  unfold remove_topic_queue_one
  cases hrow : lookupAL tq t2 with
  | none => exact hm
  | some row2 =>
    dsimp only
    split
    · exact mem_eraseAL_ne tq t2 t row hm hk
    · exact mem_insertAL_ne tq t2 t _ row hm hk

theorem mem_delete_fold (broker_name : String) (l : List String)
    (tq : List (String × List (String × QueueData))) (t : String)
    (row : List (String × QueueData)) (hm : (t, row) ∈ tq) (h : t ∉ l) :
    (t, row) ∈ l.foldl (fun tq t => remove_topic_queue_one tq broker_name t) tq := by
  induction l generalizing tq with
  | nil => exact hm
  | cons u l2 ih =>
    rw [List.foldl_cons]
    exact ih _ (mem_remove_one_ne tq broker_name u t row hm (fun hh => h (by simp [hh])))
      (fun hh => h (by simp [hh]))

theorem mem_tq_assign_ne (broker_name : String) (tc : TopicConfig)
    (m : List (String × List (String × QueueData))) (t : String)
    (row : List (String × QueueData)) (hm : (t, row) ∈ m) (hk : t ≠ tc.topic_name) :
    (t, row) ∈ tq_assign broker_name tc m := by
  unfold tq_assign
  exact mem_insertAL_ne m tc.topic_name t _ row hm hk

theorem mem_tq_assign_fold (broker_name : String) (L : List (String × TopicConfig))
    (m : List (String × List (String × QueueData))) (t : String)
    (row : List (String × QueueData)) (hm : (t, row) ∈ m)
    (h : t ∉ L.map (fun p => p.2.topic_name)) :
    (t, row) ∈ tq_assign_fold broker_name L m := by
  induction L generalizing m with
  | nil => exact hm
  | cons p R ih =>
    rw [tq_assign_fold_cons]
    have h1 : t ≠ p.2.topic_name := fun hh => h (by simp [hh])
    have h2 : t ∉ R.map (fun p => p.2.topic_name) := fun hh => h (by simp [hh])
    exact ih _ (mem_tq_assign_ne broker_name p.2 m t row hm h1) h2

theorem mem_topic_set_of (s : RIMState) (broker_name t : String)
    (row : List (String × QueueData)) (hm : (t, row) ∈ s.topic_queue_table)
    (hc : containsAL row broker_name = true) :
    t ∈ topic_set_of_broker_name s broker_name := by
  unfold topic_set_of_broker_name
  rw [topic_set_fold_mem]
  exact Or.inr ⟨row, hm, hc⟩

/-! ### register_pre is the identity on a freshly registered state (C7) -/

theorem cluster_admission_id_of (ca : List (String × List String))
    (cluster_name broker_name : String) (st : List String)
    (hlk : lookupAL ca cluster_name = some st) (hn : broker_name ∈ st) :
    cluster_admission ca cluster_name broker_name = ca := by
  have hcont : containsAL ca cluster_name = true := by
    simp [containsAL, hlk]
  unfold cluster_admission
  dsimp only
  rw [if_pos hcont, hlk]
  simp only [Option.getD_some]
  rw [insertSet_of_mem _ _ hn]
  exact insertAL_of_lookup_eq _ _ _ hlk

theorem cluster_admission_idem (ca : List (String × List String))
    (cluster_name broker_name : String) :
    cluster_admission (cluster_admission ca cluster_name broker_name)
      cluster_name broker_name
      = cluster_admission ca cluster_name broker_name := by
  have hlk : lookupAL (cluster_admission ca cluster_name broker_name) cluster_name
      = some (insertSet ((lookupAL (if containsAL ca cluster_name = true then ca
          else insertAL ca cluster_name []) cluster_name).getD []) broker_name) := by
    unfold cluster_admission
    exact lookupAL_insertAL_self _ _ _
  exact cluster_admission_id_of _ cluster_name broker_name _ hlk
    (mem_insertSet_self _ _)

theorem brokerdata_update_self (bd : BrokerData) (f : Bool) (z : Option String)
    (hf : bd.enable_acting_master = f) (hz : bd.zone_name = z) :
    { bd with enable_acting_master := f, zone_name := z } = bd := by
  cases bd
  simp at hf hz
  simp [hf, hz]

theorem remove_broker_by_addr_id (bd : BrokerData) (broker_id : Int)
    (broker_addr : String)
    (h : ∀ k v, (k, v) ∈ bd.broker_addrs → v = broker_addr → k = broker_id) :
    bd.remove_broker_by_addr broker_id broker_addr = bd := by
  unfold BrokerData.remove_broker_by_addr
  dsimp only
  have hf : bd.broker_addrs.filter
      (fun p => decide (¬(p.2 = broker_addr ∧ p.1 ≠ broker_id))) = bd.broker_addrs := by
    apply List.filter_eq_self.mpr
    intro p hp
    simp
    by_cases hv : p.2 = broker_addr
    · exact Or.inr (h p.1 p.2 (by simpa using hp) hv)
    · exact Or.inl hv
  rw [hf]

/-- register_pre leaves a state untouched when the broker row is already
present with the incoming zone and flag and the swap cleanup has nothing
to remove; registerFirst is false. -/
theorem register_pre_self (X : RIMState) (a : RegisterArgs) (ROW : BrokerData)
    (hlk : lookupAL X.broker_addr_table a.broker_name = some ROW)
    (hzone : ROW.zone_name = a.zone_name)
    (hflag : ROW.enable_acting_master = a.enable_acting_master.getD false)
    (haddr : ∀ k v, (k, v) ∈ ROW.broker_addrs → v = a.broker_addr → k = a.broker_id)
    (hca : cluster_admission X.cluster_addr_table a.cluster_name a.broker_name
      = X.cluster_addr_table) :
    register_pre X a = (X, false,
      decide (a.broker_id <
        (if ROW.broker_addrs.isEmpty then 0 else minKeys ROW.broker_addrs))) := by
  unfold register_pre
  dsimp only
  unfold upsert_broker_row
  rw [hlk]
  dsimp only
  rw [brokerdata_update_self ROW (a.enable_acting_master.getD false) a.zone_name
    hflag hzone]
  rw [insertAL_of_lookup_eq _ _ _ hlk]
  rw [hlk]
  simp only [Option.getD_some]
  rw [remove_broker_by_addr_id ROW a.broker_id a.broker_addr haddr]
  rw [insertAL_of_lookup_eq _ _ _ hlk]
  rw [hca]

/-- Under the idempotence proviso the row after register_pre carries
exactly the incoming enableActingMaster value. -/
theorem row_flag_eq (s : RIMState) (a : RegisterArgs)
    (hflag : containsAL s.broker_addr_table a.broker_name = true
      ∨ a.enable_acting_master.getD false = false) :
    (broker_row_after_pre s a).enable_acting_master
      = a.enable_acting_master.getD false := by
  have h := (register_pre_props s a).2.2.2.1
  rcases hflag with hc | hio
  · rw [h, if_pos hc]
  · rw [h, hio]
    split <;> rfl

/-- The register_pre state of any register_broker outcome admits its own
cluster admission (the broker name is already in the cluster row). -/
theorem cluster_admission_pre_idem (s : RIMState) (a : RegisterArgs) :
    cluster_admission (register_pre s a).1.cluster_addr_table a.cluster_name a.broker_name
      = (register_pre s a).1.cluster_addr_table := by
  have h : (register_pre s a).1.cluster_addr_table
      = cluster_admission s.cluster_addr_table a.cluster_name a.broker_name := rfl
  rw [h]
  exact cluster_admission_idem _ _ _

/-- Second call after a single-topic-guard rejection: the same rejection,
with the state untouched. -/
theorem second_call_guard (s : RIMState) (a : RegisterArgs) (now2 : Int)
    (hflag : containsAL s.broker_addr_table a.broker_name = true
      ∨ a.enable_acting_master.getD false = false)
    (hng : containsAL (broker_row_after_pre s a).broker_addrs a.broker_id = false)
    (hsz : wrapper_topic_count a.wrapper = 1) :
    register_broker (register_pre s a).1 a now2 = some ((register_pre s a).1, none) := by
  have hprops := register_pre_props s a
  have hpre2 := register_pre_self (register_pre s a).1 a (broker_row_after_pre s a)
    hprops.1 hprops.2.2.1 (row_flag_eq s a hflag) hprops.2.2.2.2
    (cluster_admission_pre_idem s a)
  have hrow2 : broker_row_after_pre (register_pre s a).1 a = broker_row_after_pre s a := by
    unfold broker_row_after_pre
    rw [hpre2]
  rw [register_broker_eq, hrow2]
  have hlk : lookupAL (broker_row_after_pre s a).broker_addrs a.broker_id = none := by
    simp [containsAL] at hng
    exact hng
  rw [hlk]
  dsimp only
  rw [hpre2]
  dsimp only
  exact register_core_guard _ a now2 false _ _ (by rw [hprops.1]; simpa [containsAL] using hlk) hsz

/-- Second call after a stale rejection: the same stale rejection, with
the state untouched (the live entry is already evicted). -/
theorem second_call_stale (s : RIMState) (a : RegisterArgs) (now2 : Int)
    (hflag : containsAL s.broker_addr_table a.broker_name = true
      ∨ a.enable_acting_master.getD false = false)
    (hst : stale_registration s a) :
    register_broker (stale_exit_state s a) a now2
      = some (stale_exit_state s a, some RegisterBrokerResult.empty) := by
  obtain ⟨old_broker_addr, val, new_dv, h_old, h_ne, h_live, h_dv, h_gt⟩ := hst
  have hprops := register_pre_props s a
  have hbaX : (stale_exit_state s a).broker_addr_table
      = (register_pre s a).1.broker_addr_table := rfl
  have hcaX : (stale_exit_state s a).cluster_addr_table
      = (register_pre s a).1.cluster_addr_table := rfl
  have hblX : (stale_exit_state s a).broker_live_table
      = eraseAL (register_pre s a).1.broker_live_table
          (a.cluster_name, a.broker_addr) := rfl
  have hlkX : lookupAL (stale_exit_state s a).broker_addr_table a.broker_name
      = some (broker_row_after_pre s a) := by
    rw [hbaX]
    exact hprops.1
  have hpre2 := register_pre_self (stale_exit_state s a) a (broker_row_after_pre s a)
    hlkX hprops.2.2.1 (row_flag_eq s a hflag) hprops.2.2.2.2
    (by rw [hcaX]; exact cluster_admission_pre_idem s a)
  have hrow2 : broker_row_after_pre (stale_exit_state s a) a
      = broker_row_after_pre s a := by
    unfold broker_row_after_pre
    rw [hpre2]
    dsimp only
    rw [hlkX, hprops.1]
  rw [register_broker_eq, hrow2, h_old]
  dsimp only
  rw [if_neg h_ne]
  have hlive2 : lookupAL (register_pre (stale_exit_state s a) a).1.broker_live_table
      (a.cluster_name, old_broker_addr) = some val := by
    rw [hpre2]
    dsimp only
    rw [hblX]
    rw [lookupAL_eraseAL_ne _ _ _ (fun hh => h_ne (congrArg Prod.snd hh))]
    exact h_live
  rw [hlive2]
  dsimp only
  rw [h_dv]
  dsimp only
  rw [if_pos h_gt]
  have hX2 : stale_exit_state (stale_exit_state s a) a = stale_exit_state s a := by
    have hunf : stale_exit_state (stale_exit_state s a) a = { (register_pre (stale_exit_state s a) a).1 with broker_live_table := eraseAL (register_pre (stale_exit_state s a) a).1.broker_live_table (a.cluster_name, a.broker_addr) } := rfl
    rw [hunf, hpre2]
    dsimp only
    rw [hblX, eraseAL_eraseAL, ← hblX]
  rw [hX2]

/-! ### The full registration path, named (C7) -/

/-- register_core past the single-topic guard, written with the named
full-path components. -/
theorem register_core_full_eq (s : RIMState) (a : RegisterArgs) (now : Int)
    (hguardb : (! containsAL (broker_row_after_pre s a).broker_addrs a.broker_id
      && wrapper_topic_count a.wrapper == 1) = false) :
    register_core (register_pre s a).1 a now (register_pre s a).2.1
      (register_pre s a).2.2 (a.enable_acting_master.getD false)
      = match apply_topic_block (s2core_full s a) a (bd2_full s a) (rf_full s a)
          (prime_full s a) (a.broker_id == 0) with
        | some s4 =>
          if (register_pre s a).2.2
              && (register_pre s a).1.namesrv_config.notify_min_broker_id_changed then none
          else some ((finish_register s4 a now (bd2_full s a)).1,
            some (finish_register s4 a now (bd2_full s a)).2)
        | none => none := by
  unfold register_core
  dsimp only
  rw [register_core_row s a]
  rw [if_neg (fun hh => Bool.false_ne_true (hguardb.symm.trans hh))]
  rfl

/-- The write mask of the per-topic loop is dead code: the prime-slave
classification and the row's enableActingMaster flag are never both
set. -/
theorem prime_mask_dead (s : RIMState) (a : RegisterArgs) :
    (prime_full s a && (bd2_full s a).enable_acting_master) = false := by
  have hfl : (bd2_full s a).enable_acting_master
      = (broker_row_after_pre s a).enable_acting_master := rfl
  have hrow := (register_pre_props s a).2.2.2.1
  cases hio : a.enable_acting_master.getD false with
  | true =>
    have hp : prime_full s a = false := by
      unfold prime_full
      rw [hio]
      rfl
    rw [hp, Bool.false_and]
  | false =>
    have hf : (bd2_full s a).enable_acting_master = false := by
      rw [hfl, hrow, hio]
      split <;> rfl
    rw [hf, Bool.and_false]

theorem finish_register_fst (s4 : RIMState) (a : RegisterArgs) (now : Int)
    (bd : BrokerData) :
    (finish_register s4 a now bd).1
      = { s4 with broker_live_table := (insertAL s4.broker_live_table (a.cluster_name, a.broker_addr) (live_info_of a now)), filter_server_table := (fs_update a s4.filter_server_table) } := rfl

theorem fs_update_idem (a : RegisterArgs) (fs : List ((String × String) × List String)) :
    fs_update a (fs_update a fs) = fs_update a fs := by
  unfold fs_update
  split
  · exact eraseAL_eraseAL _ _
  · exact insertAL_insertAL_self _ _ _ _

theorem changed_false_after (s1 : RIMState) (a : RegisterArgs) (now1 : Int)
    (dvv : DataVersion) (hdv : a.wrapper.data_version = some dvv)
    (hbl : lookupAL s1.broker_live_table (a.cluster_name, a.broker_addr)
      = some (live_info_of a now1)) :
    is_broker_topic_config_changed s1 a.cluster_name a.broker_addr dvv = false := by
  unfold is_broker_topic_config_changed query_broker_topic_config
  rw [hbl]
  dsimp only
  unfold live_info_of
  dsimp only
  rw [hdv]
  simp

/-- Second call after a completed full registration: the state changes
only in the live-entry timestamp. -/
theorem second_call_full (s : RIMState) (a : RegisterArgs) (now1 now2 : Int)
    (hflag : containsAL s.broker_addr_table a.broker_name = true
      ∨ a.enable_acting_master.getD false = false)
    (s4 : RIMState)
    (hblock : apply_topic_block (s2core_full s a) a (bd2_full s a) (rf_full s a)
      (prime_full s a) (a.broker_id == 0) = some s4)
    (s2 : RIMState) (r2 : Option RegisterBrokerResult)
    (h2 : register_broker (finish_register s4 a now1 (bd2_full s a)).1 a now2
      = some (s2, r2)) :
    scrub_timestamps s2
      = scrub_timestamps (finish_register s4 a now1 (bd2_full s a)).1 := by
  obtain ⟨tq4, tqm4, hs4⟩ := apply_topic_block_frame _ a _ _ _ _ _ hblock
  set S1 : RIMState := (finish_register s4 a now1 (bd2_full s a)).1 with hS1
  have hS1eq : S1 = { (s2core_full s a) with topic_queue_table := tq4, topic_queue_mapping_info_table := tqm4, broker_live_table := (insertAL (s2core_full s a).broker_live_table (a.cluster_name, a.broker_addr) (live_info_of a now1)), filter_server_table := (fs_update a (s2core_full s a).filter_server_table) } := by
    rw [hS1, finish_register_fst, hs4]
  have hpreba : (s2core_full s a).broker_addr_table
      = insertAL (register_pre s a).1.broker_addr_table a.broker_name (bd2_full s a) := rfl
  have hS1ba : S1.broker_addr_table
      = insertAL (register_pre s a).1.broker_addr_table a.broker_name (bd2_full s a) := by
    rw [hS1eq]
    rfl
  have hS1ca : S1.cluster_addr_table = (register_pre s a).1.cluster_addr_table := by
    rw [hS1eq]
    rfl
  have hS1bl : S1.broker_live_table
      = insertAL s.broker_live_table (a.cluster_name, a.broker_addr)
          (live_info_of a now1) := by
    rw [hS1eq]
    rfl
  have hS1fs : S1.filter_server_table = fs_update a s.filter_server_table := by
    rw [hS1eq]
    rfl
  have hS1tq : S1.topic_queue_table = tq4 := by
    rw [hS1eq]
  have hS1cfg : S1.namesrv_config = s.namesrv_config := by
    rw [hS1eq]
    rfl
  have hlk1 : lookupAL S1.broker_addr_table a.broker_name = some (bd2_full s a) := by
    rw [hS1ba]
    exact lookupAL_insertAL_self _ _ _
  have hzone1 : (bd2_full s a).zone_name = a.zone_name :=
    (register_pre_props s a).2.2.1
  have hflag1 : (bd2_full s a).enable_acting_master
      = a.enable_acting_master.getD false := row_flag_eq s a hflag
  have hbd2addrs : (bd2_full s a).broker_addrs
      = insertAL (broker_row_after_pre s a).broker_addrs a.broker_id a.broker_addr := rfl
  have haddr1 : ∀ k v, (k, v) ∈ (bd2_full s a).broker_addrs →
      v = a.broker_addr → k = a.broker_id := by
    intro k v hm hv
    rw [hbd2addrs] at hm
    rcases mem_insertAL _ _ _ _ _ hm with heq | hmem
    · exact congrArg Prod.fst heq
    · exact (register_pre_props s a).2.2.2.2 k v hmem hv
  have hca1 : cluster_admission S1.cluster_addr_table a.cluster_name a.broker_name
      = S1.cluster_addr_table := by
    rw [hS1ca]
    exact cluster_admission_pre_idem s a
  have hpre2 := register_pre_self S1 a (bd2_full s a) hlk1 hzone1 hflag1 haddr1 hca1
  have hrow2 : broker_row_after_pre S1 a = bd2_full s a := by
    unfold broker_row_after_pre
    rw [hpre2]
    dsimp only
    rw [hlk1]
    rfl
  have hlkaddr : lookupAL (bd2_full s a).broker_addrs a.broker_id
      = some a.broker_addr := by
    rw [hbd2addrs]
    exact lookupAL_insertAL_self _ _ _
  have hmc2 : (register_pre S1 a).2.2 = false := by
    rw [hpre2]
    dsimp only
    have hne : (bd2_full s a).broker_addrs.isEmpty = false := by
      rw [hbd2addrs]
      cases hll : insertAL (broker_row_after_pre s a).broker_addrs a.broker_id
          a.broker_addr with
      | nil => exact absurd hll (insertAL_ne_nil _ _ _)
      | cons x xs => rfl
    rw [hne]
    simp only [Bool.false_eq_true, if_false]
    have hmin : minKeys (bd2_full s a).broker_addrs ≤ a.broker_id :=
      minKeys_le _ _ _ (lookupAL_mem _ _ _ hlkaddr)
    exact decide_eq_false (not_lt.mpr hmin)
  have hguard2b : (! containsAL (broker_row_after_pre S1 a).broker_addrs a.broker_id
      && wrapper_topic_count a.wrapper == 1) = false := by
    rw [hrow2]
    have hcont : containsAL (bd2_full s a).broker_addrs a.broker_id = true := by
      simp [containsAL, hlkaddr]
    rw [hcont]
    rfl
  have hbd22 : bd2_full S1 a = bd2_full s a := by
    unfold bd2_full
    dsimp only
    rw [hrow2, hbd2addrs, insertAL_insertAL_self, ← hbd2addrs]
    rfl
  have hs2core2 : s2core_full S1 a = S1 := by
    unfold s2core_full
    dsimp only
    rw [hpre2]
    dsimp only
    rw [hbd22, insertAL_of_lookup_eq _ _ _ hlk1]
  have hrf2 : rf_full S1 a = false := by
    unfold rf_full
    rw [hpre2, hrow2, hlkaddr]
    rfl
  have hprime2 : prime_full S1 a = prime_full s a := by
    unfold prime_full
    rw [hbd22]
  rw [register_broker_eq, hrow2, hlkaddr] at h2
  dsimp only at h2
  rw [if_pos rfl] at h2
  rw [register_core_full_eq S1 a now2 hguard2b] at h2
  rw [hs2core2, hbd22, hrf2, hprime2, hmc2] at h2
  simp only [Bool.false_and, Bool.false_eq_true, if_false] at h2
  -- the main identity: the second topic block leaves S1 unchanged
  have hmask1 : (prime_full s a && (bd2_full s a).enable_acting_master) = false :=
    prime_mask_dead s a
  have hblock2 : apply_topic_block S1 a (bd2_full s a) false (prime_full s a)
      (a.broker_id == 0) = some S1 := by
    unfold apply_topic_block
    by_cases hrole : ((a.broker_id == 0) || prime_full s a) = true
    · rw [if_pos hrole]
      cases htc : a.wrapper.topic_config_table with
      | none => rfl
      | some tc_table =>
        unfold apply_topic_block at hblock
        rw [if_pos hrole, htc] at hblock
        cases hdv : a.wrapper.data_version with
        | none =>
          rw [hdv] at hblock
          dsimp only at hblock
          exact Option.noConfusion hblock
        | some dvv =>
          rw [hdv] at hblock
          dsimp only at hblock
          dsimp only
          have hcfg2core : (s2core_full s a).namesrv_config = s.namesrv_config := rfl
          rw [hcfg2core] at hblock
          rw [hS1cfg]
          -- the per-topic loop of the first call, as assignments
          rw [fold_step_eq_assign_fold a dvv (rf_full s a) (prime_full s a)
            (bd2_full s a) tc_table _ hmask1] at hblock
          rw [fold_step_eq_assign_fold a dvv false (prime_full s a)
            (bd2_full s a) tc_table _ hmask1]
          by_cases hC : (s.namesrv_config.delete_topic_with_broker_registration
              && a.wrapper.topic_queue_mapping_info_map.isEmpty) = true
          · rw [if_pos hC] at hblock ⊢
            rw [delete_topics_eq_fold] at hblock
            -- the topic table of the first call's result
            have hS1tqval : S1.topic_queue_table
                = tq_assign_fold a.broker_name tc_table
                  ((to_delete_list (s2core_full s a) a.broker_name
                    (List.map Prod.fst tc_table)).foldl
                    (fun tq t => remove_topic_queue_one tq a.broker_name t)
                    (s2core_full s a).topic_queue_table) := by
              rw [hS1tq]
              split at hblock
              · split at hblock
                · simp only [Option.some.injEq] at hblock
                  rw [← hblock] at hs4
                  have := congrArg RIMState.topic_queue_table hs4
                  dsimp only at this
                  exact this.symm
                · exact Option.noConfusion hblock
              · simp only [Option.some.injEq] at hblock
                rw [← hblock] at hs4
                have := congrArg RIMState.topic_queue_table hs4
                dsimp only at this
                exact this.symm
            -- the second deletion pass is the identity
            have hdel2 : delete_topics_with_registration S1 a.broker_name
                (List.map Prod.fst tc_table) = S1 := by
              apply delete_topics_id_of
              intro t ht row hrow hrownil
              have htnew : t ∈ new_topic_set_of (List.map Prod.fst tc_table) :=
                List.mem_of_mem_filter ht
              have htnot : t ∉ topic_set_of_broker_name S1 a.broker_name := by
                have hflt := (List.mem_filter.mp ht).2
                simp at hflt
                exact hflt
              subst hrownil
              by_cases hmap : t ∈ tc_table.map (fun p => p.2.topic_name)
              · obtain ⟨row2, hrow2x, hcont2⟩ := tq_assign_fold_assigned a.broker_name
                  tc_table _ t hmap
                rw [hS1tqval] at hrow
                rw [hrow2x] at hrow
                have : row2 = [] := Option.some.inj hrow
                rw [this] at hcont2
                simp [containsAL, lookupAL] at hcont2
              · rw [hS1tqval,
                  tq_assign_fold_lookup_not_assigned a.broker_name tc_table _ t hmap]
                  at hrow
                by_cases htd1 : t ∈ to_delete_list (s2core_full s a) a.broker_name
                    (List.map Prod.fst tc_table)
                · exact delete_fold_no_empty a.broker_name _ _ t htd1
                    (to_delete_list_nodup _ _ _) hrow
                · rw [delete_fold_lookup_not_mem a.broker_name _ _ t htd1] at hrow
                  have hcont : (topic_set_of_broker_name (s2core_full s a)
                      a.broker_name).contains t = true := by
                    by_contra hcc
                    apply htd1
                    unfold to_delete_list
                    rw [List.mem_filter]
                    refine ⟨htnew, ?_⟩
                    cases hb : (topic_set_of_broker_name (s2core_full s a)
                        a.broker_name).contains t
                    · rfl
                    · exact absurd hb hcc
                  have htset : t ∈ topic_set_of_broker_name (s2core_full s a)
                      a.broker_name := by
                    simpa using hcont
                  unfold topic_set_of_broker_name at htset
                  rw [topic_set_fold_mem] at htset
                  rcases htset with h0 | ⟨row3, hrow3, hcont3⟩
                  · simp at h0
                  · apply htnot
                    apply mem_topic_set_of S1 a.broker_name t row3 _ hcont3
                    rw [hS1tqval]
                    apply mem_tq_assign_fold a.broker_name tc_table _ t row3 _ hmap
                    exact mem_delete_fold a.broker_name _ _ t row3 hrow3 htd1
            rw [hdel2, hS1tqval, tq_assign_fold_idem, ← hS1tqval]
            have hchanged : is_broker_topic_config_changed S1 a.cluster_name
                a.broker_addr dvv = false := by
              apply changed_false_after S1 a now1 dvv hdv
              rw [hS1bl]
              exact lookupAL_insertAL_self _ _ _
            rw [hchanged]
            rfl
          · rw [if_neg hC] at hblock ⊢
            have hS1tqval : S1.topic_queue_table
                = tq_assign_fold a.broker_name tc_table
                  (s2core_full s a).topic_queue_table := by
              rw [hS1tq]
              split at hblock
              · split at hblock
                · simp only [Option.some.injEq] at hblock
                  rw [← hblock] at hs4
                  have := congrArg RIMState.topic_queue_table hs4
                  dsimp only at this
                  exact this.symm
                · exact Option.noConfusion hblock
              · simp only [Option.some.injEq] at hblock
                rw [← hblock] at hs4
                have := congrArg RIMState.topic_queue_table hs4
                dsimp only at this
                exact this.symm
            rw [hS1tqval, tq_assign_fold_idem, ← hS1tqval]
            have hchanged : is_broker_topic_config_changed S1 a.cluster_name
                a.broker_addr dvv = false := by
              apply changed_false_after S1 a now1 dvv hdv
              rw [hS1bl]
              exact lookupAL_insertAL_self _ _ _
            rw [hchanged]
            rfl
    · rw [if_neg hrole]
  rw [hblock2] at h2
  dsimp only at h2
  simp only [Option.some.injEq, Prod.mk.injEq] at h2
  rw [← h2.1]
  -- the second finish only rewrites the live timestamp and repeats the
  -- filter-server update
  rw [finish_register_fst]
  unfold scrub_timestamps
  dsimp only
  rw [hS1fs, fs_update_idem]
  have hblmap : (insertAL S1.broker_live_table (a.cluster_name, a.broker_addr)
        (live_info_of a now2)).map (fun p => (p.1, scrub_live_info p.2))
      = S1.broker_live_table.map (fun p => (p.1, scrub_live_info p.2)) := by
    rw [map_insertAL, hS1bl, map_insertAL, insertAL_insertAL_self]
    rfl
  rw [hblmap, ← hS1fs]

/-- C7: for a fixed argument tuple, calling register_broker twice in a
row leaves all six tables in the same state as calling it once, up to
the lastUpdateTimestamp field of the BrokerLiveTable entries — provided
the broker row already exists or enableActingMaster does not hold (the
codepath on which the freshly inserted row's enableActingMaster flag
matches the argument; outside it the second call flips the stored flag,
see the counterexample). -/
theorem C7_register_idempotent (s : RIMState) (a : RegisterArgs) (now1 now2 : Int)
    (s1 s2 : RIMState) (r1 r2 : Option RegisterBrokerResult)
    (hflag : containsAL s.broker_addr_table a.broker_name = true
      ∨ a.enable_acting_master.getD false = false)
    (h1 : register_broker s a now1 = some (s1, r1))
    (h2 : register_broker s1 a now2 = some (s2, r2)) :
    scrub_timestamps s2 = scrub_timestamps s1 := by
  have hmain : register_core (register_pre s a).1 a now1 (register_pre s a).2.1
      (register_pre s a).2.2 (a.enable_acting_master.getD false) = some (s1, r1) →
      scrub_timestamps s2 = scrub_timestamps s1 := by
    intro hcore
    by_cases hguard : (! containsAL (broker_row_after_pre s a).broker_addrs a.broker_id
        && wrapper_topic_count a.wrapper == 1) = true
    · rw [Bool.and_eq_true, Bool.not_eq_true', beq_iff_eq] at hguard
      have hg2 : register_core (register_pre s a).1 a now1 (register_pre s a).2.1
          (register_pre s a).2.2 (a.enable_acting_master.getD false)
          = some ((register_pre s a).1, none) := by
        apply register_core_guard
        · rw [register_core_row s a]
          exact hguard.1
        · exact hguard.2
      rw [hg2] at hcore
      simp only [Option.some.injEq, Prod.mk.injEq] at hcore
      have hs1 : s1 = (register_pre s a).1 := hcore.1.symm
      have h2call := second_call_guard s a now2 hflag hguard.1 hguard.2
      rw [hs1] at h2
      have hcomb := h2call.symm.trans h2
      simp only [Option.some.injEq, Prod.mk.injEq] at hcomb
      rw [hs1, ← hcomb.1]
    · have hgb : (! containsAL (broker_row_after_pre s a).broker_addrs a.broker_id
          && wrapper_topic_count a.wrapper == 1) = false := by
        cases hx : (! containsAL (broker_row_after_pre s a).broker_addrs a.broker_id
            && wrapper_topic_count a.wrapper == 1)
        · rfl
        · exact absurd hx hguard
      rw [register_core_full_eq s a now1 hgb] at hcore
      cases hb : apply_topic_block (s2core_full s a) a (bd2_full s a) (rf_full s a)
          (prime_full s a) (a.broker_id == 0) with
      | none =>
        rw [hb] at hcore
        exact Option.noConfusion hcore
      | some s4 =>
        rw [hb] at hcore
        dsimp only at hcore
        by_cases hmc : ((register_pre s a).2.2
            && (register_pre s a).1.namesrv_config.notify_min_broker_id_changed) = true
        · rw [if_pos hmc] at hcore
          exact Option.noConfusion hcore
        · rw [if_neg hmc] at hcore
          simp only [Option.some.injEq, Prod.mk.injEq] at hcore
          have hs1 : s1 = (finish_register s4 a now1 (bd2_full s a)).1 := hcore.1.symm
          rw [hs1] at h2
          rw [hs1]
          exact second_call_full s a now1 now2 hflag s4 hb s2 r2 h2
  rw [register_broker_eq] at h1
  cases hold : lookupAL (broker_row_after_pre s a).broker_addrs a.broker_id with
  | none =>
    rw [hold] at h1
    dsimp only at h1
    exact hmain h1
  | some old_addr =>
    rw [hold] at h1
    dsimp only at h1
    by_cases heq : old_addr = a.broker_addr
    · rw [if_pos heq] at h1
      exact hmain h1
    · rw [if_neg heq] at h1
      cases hlive : lookupAL (register_pre s a).1.broker_live_table
          (a.cluster_name, old_addr) with
      | none =>
        rw [hlive] at h1
        dsimp only at h1
        exact hmain h1
      | some val =>
        rw [hlive] at h1
        dsimp only at h1
        cases hdv : a.wrapper.data_version with
        | none =>
          rw [hdv] at h1
          dsimp only at h1
          exact Option.noConfusion h1
        | some new_dv =>
          rw [hdv] at h1
          dsimp only at h1
          by_cases hgt : val.data_version.state_version > new_dv.state_version
          · rw [if_pos hgt] at h1
            simp only [Option.some.injEq, Prod.mk.injEq] at h1
            have hs1 : s1 = stale_exit_state s a := h1.1.symm
            have hst : stale_registration s a :=
              ⟨old_addr, val, new_dv, hold, heq, hlive, hdv, hgt⟩
            have h2call := second_call_stale s a now2 hflag hst
            rw [hs1] at h2
            have hcomb := h2call.symm.trans h2
            simp only [Option.some.injEq, Prod.mk.injEq] at hcomb
            rw [hs1, ← hcomb.1]
          · rw [if_neg hgt] at h1
            exact hmain h1

/-- C7 counterexample: with enableActingMaster = Some(true) on a fresh
broker the first call inserts a row with the stored flag unset (the
fresh-row constructor ignores the argument) while the second call
overwrites the flag to true, so calling twice differs from calling once
even after scrubbing every lastUpdateTimestamp. -/
theorem C7_counterexample :
    (register_broker (empty_rim c7cfg) c7args_eam 5).isSome = true
    ∧ (register_broker c7once_eam c7args_eam 6).isSome = true
    ∧ scrub_timestamps c7twice_eam ≠ scrub_timestamps c7once_eam := by
  decide

/-- C7 witness: the idempotence theorem applied to a concrete fresh
registration without the enableActingMaster flag. -/
theorem C7_register_idempotent_witness :
    scrub_timestamps c7twice = scrub_timestamps c7once :=
  C7_register_idempotent (empty_rim c7cfg) c7args 5 6 c7once c7twice c7once_r c7twice_r
    (Or.inr rfl) (by decide) (by decide)
